import Mathlib

set_option maxHeartbeats 1000000

/-!
Verification development for `aria_mapping.py`, the VMware Aria Automation
infrastructure mapping tool.  The definitions below are a shallow embedding
of the tool's reconciliation logic: Python dicts become association lists
with last-assignment-wins lookups, the remote backend becomes explicit
state, and each command handler becomes a function from the backend state
and the configuration to the list of write operations it plans (dry-run) or
issues (execute), its summary counters, and the backend state it leaves.
-/

/-- A capability tag: one `{key, value}` dict from the config or the API. -/
structure Tag where
  key : String
  value : String
deriving DecidableEq, Repr

/-- The string the tool builds per tag in its idempotency checks:
`f"{t['key']}:{t['value']}"`. -/
def tagJoin (t : Tag) : String := t.key ++ ":" ++ t.value

/-- `set(f"{t['key']}:{t['value']}" for t in tags)`: the Python set of joined
strings used on both sides of the comparison. -/
def tagStrSet (ts : List Tag) : Finset String := (ts.map tagJoin).toFinset

/-- The tag-set comparison performed by `cmd_process_tags` and
`cmd_process_storage`: equality of the two sets of joined strings. -/
def tagSetEq (a b : List Tag) : Bool := decide (tagStrSet a = tagStrSet b)

/-- The unordered set of `(key, value)` pairs a tag list denotes. -/
def tagPairSet (ts : List Tag) : Finset (String × String) :=
  (ts.map (fun t => (t.key, t.value))).toFinset

theorem tagSetEq_refl (a : List Tag) : tagSetEq a a = true := by
  simp [tagSetEq]

/-! ## Python dict and truthiness helpers -/

/-- Python truthiness of an optional string: `None` and `""` are falsy. -/
def truthyS : Option String → Bool
  | none => false
  | some s => s != ""

/-- Python dict assignment on an association list: append; lookups take the
last binding, so later assignments win. -/
def dinsert {α β : Type} (d : List (α × β)) (k : α) (v : β) : List (α × β) :=
  d ++ [(k, v)]

/-- Python `d.get(k)` on the association list: the last binding wins. -/
def dget {α β : Type} [DecidableEq α] (d : List (α × β)) (k : α) : Option β :=
  (d.reverse.find? (fun kv => decide (kv.1 = k))).map (·.2)

/-! ## Taggable resources (cloud zones, network profiles, fabric computes) -/

/-- A taggable resource as the list endpoints return it: a cloud zone, a
network profile or a fabric compute, each `{name, id, tags}`. -/
structure Resource where
  name : String
  id : String
  tags : List Tag
deriving DecidableEq, Repr

/-- `{x.get('name'): x for x in xs}` followed by `.get(n)`: a Python dict
comprehension keyed by name, so the last element with a given name wins. -/
def lookupByName (rs : List Resource) (n : String) : Option Resource :=
  rs.reverse.find? (fun r => decide (r.name = n))

/-- One entry of `tags.cloud_zones` / `tags.network_profiles` / `tags.compute`
in the config: a resource name and the desired tag list. -/
structure TagEntry where
  name : String
  tags : List Tag
deriving DecidableEq, Repr

/-- Which of the three sections of `cmd_process_tags` a write belongs to. -/
inductive TagKind
  | cloudZone
  | networkProfile
  | fabricCompute
deriving DecidableEq, Repr

/-- A tag PATCH as planned or issued by `cmd_process_tags`: the resource id
and the full desired tag list the tool sends (cloud-zone writes also resend
the unchanged resource name, which the id determines). -/
structure TagWriteOp where
  kind : TagKind
  resId : String
  tags : List Tag
deriving DecidableEq, Repr

/-- Decision outcome for one config entry in `cmd_process_tags`. -/
inductive TagVerdict
  | notFound
  | converged
  | needsUpdate (resId : String)
deriving DecidableEq, Repr

/-- One entry's decision in `cmd_process_tags`: resource not found → skipped;
joined-string tag sets equal → converged (`continue`, no write); otherwise a
tag update on the found resource's id. -/
def tagEntryVerdict (rs : List Resource) (e : TagEntry) : TagVerdict :=
  match lookupByName rs e.name with
  | none => .notFound
  | some r => if tagSetEq r.tags e.tags then .converged else .needsUpdate r.id

/-- The write operation (if any) one entry produces, decided against the
prefetched resource list `rs`. -/
def tagEntryOp (kind : TagKind) (rs : List Resource) (e : TagEntry) :
    Option TagWriteOp :=
  match tagEntryVerdict rs e with
  | .needsUpdate i => some ⟨kind, i, e.tags⟩
  | _ => none

/-- The summary counters the command handlers accumulate. -/
structure Results where
  created : Nat
  updated : Nat
  failed : Nat
  skipped : Nat
deriving DecidableEq, Repr

def Results.add (a b : Results) : Results :=
  ⟨a.created + b.created, a.updated + b.updated, a.failed + b.failed,
   a.skipped + b.skipped⟩

def Results.zero : Results := ⟨0, 0, 0, 0⟩

/-- Effect of an accepted tag PATCH on the backend slice: the resource with
the written id gets the full desired tag list (the PATCH replaces `tags`). -/
def applyTagWrite (cur : List Resource) (op : TagWriteOp) : List Resource :=
  cur.map (fun r => if r.id = op.resId then { r with tags := op.tags } else r)

/-- One section of `cmd_process_tags` (cloud zones, network profiles or
computes).  The resource list `rs0` is fetched once before the loop and every
decision is made against it; `cur` is the live backend slice, which an
accepted write updates in execute mode.  Returns the planned (dry-run) or
issued (execute) ops, the counters, and the final backend slice. -/
def runTagSection (dryRun : Bool) (wr : TagWriteOp → Bool) (kind : TagKind)
    (rs0 : List Resource) :
    List TagEntry → List Resource → List TagWriteOp × Results × List Resource
  | [], cur => ([], Results.zero, cur)
  | e :: rest, cur =>
    match tagEntryVerdict rs0 e with
    | .notFound =>
      let result := runTagSection dryRun wr kind rs0 rest cur
      (result.1, Results.add ⟨0, 0, 0, 1⟩ result.2.1, result.2.2)
    | .converged => runTagSection dryRun wr kind rs0 rest cur
    | .needsUpdate i =>
      let op : TagWriteOp := ⟨kind, i, e.tags⟩
      if dryRun then
        let result := runTagSection dryRun wr kind rs0 rest cur
        (op :: result.1, result.2.1, result.2.2)
      else if wr op then
        let result := runTagSection dryRun wr kind rs0 rest (applyTagWrite cur op)
        (op :: result.1, Results.add ⟨0, 1, 0, 0⟩ result.2.1, result.2.2)
      else
        let result := runTagSection dryRun wr kind rs0 rest cur
        (op :: result.1, Results.add ⟨0, 0, 1, 0⟩ result.2.1, result.2.2)

/-! ## Storage profiles -/

/-- Does the character list start with the given separator? -/
def startsWithChars : List Char → List Char → Bool
  | _, [] => true
  | [], _ :: _ => false
  | a :: as, b :: bs => a = b && startsWithChars as bs

/-- Python `str.split(sep)` for a non-empty separator, over character
lists: split at each left-to-right, non-overlapping occurrence of `sep`.
The fuel argument (any bound above the input length) only serves structural
termination. -/
def splitChars (sep : List Char) : Nat → List Char → List Char →
    List (List Char)
  | 0, s, acc => [acc.reverse ++ s]
  | _ + 1, [], acc => [acc.reverse]
  | n + 1, c :: rest, acc =>
    if startsWithChars (c :: rest) sep then
      acc.reverse :: splitChars sep n ((c :: rest).drop sep.length) []
    else splitChars sep n rest (c :: acc)

/-- Python `s.split(sep)` for a non-empty separator. -/
def pySplit (s sep : String) : List String :=
  (splitChars sep.data (s.data.length + 1) s.data []).map String.mk

/-- `region_href.split('/regions/')[-1]`, guarded by
`'/regions/' in region_href`; empty string when the marker is absent.  (The
membership test holds exactly when the split has at least two parts.) -/
def extractRegionId (href : String) : String :=
  let parts := pySplit href "/regions/"
  if 1 < parts.length then parts.getLastD "" else ""

/-- The `diskProperties` sub-document of a storage profile: the provisioning
type plus any further fields; updates copy the whole document verbatim, so
the extra fields are kept opaque. -/
structure DiskProperties where
  provisioningType : Option String
  extra : List (String × String)
deriving DecidableEq, Repr

/-- A storage profile document as the backend holds it.  Optional dict keys
the code reads bare (`name`, `diskProperties`, `diskTargetProperties`,
`computeHostId`) are `Option`; keys it reads with a constant default
(`description`, `defaultItem`, `supportsEncryption`, `regionId`, the region
links href) are plain values, the default standing for an absent key. -/
structure StorageProfile where
  id : String
  name : Option String
  description : String
  defaultItem : Bool
  supportsEncryption : Bool
  tags : List Tag
  regionId : String
  linksRegionHref : String
  diskProperties : Option DiskProperties
  diskTargetProperties : Option String
  computeHostId : Option String
deriving DecidableEq, Repr

/-- The full PUT document for a storage profile update. -/
structure StoragePutPayload where
  name : Option String
  description : String
  defaultItem : Bool
  supportsEncryption : Bool
  tags : List Tag
  regionId : String
  diskProperties : Option DiskProperties
  diskTargetProperties : Option String
  computeHostId : Option String
deriving DecidableEq, Repr

/-- The payload built by `AriaClient.update_storage_profile_tags`: every
existing field re-sent (the endpoint is a full replace), tags replaced by the
desired list, the region id taken from the document or recovered from the
links href, and the compute binding taken from the argument when truthy,
otherwise preserved from the existing profile when truthy. -/
def update_storage_profile_tags_payload (tags : List Tag)
    (existing : StorageProfile) (computeHostId : Option String) :
    StoragePutPayload :=
  let regionId :=
    if existing.regionId ≠ "" then existing.regionId
    else extractRegionId existing.linksRegionHref
  { name := existing.name
    description := existing.description
    defaultItem := existing.defaultItem
    supportsEncryption := existing.supportsEncryption
    tags := tags.map (fun t => ⟨t.key, t.value⟩)
    regionId := regionId
    diskProperties := existing.diskProperties
    diskTargetProperties := existing.diskTargetProperties
    computeHostId :=
      if truthyS computeHostId then computeHostId
      else if truthyS existing.computeHostId then existing.computeHostId
      else none }

/-- The POST document for a new storage profile. -/
structure StorageCreatePayload where
  name : String
  description : String
  defaultItem : Bool
  supportsEncryption : Bool
  tags : List Tag
  diskProperties : DiskProperties
  regionId : String
  computeHostId : Option String
deriving DecidableEq, Repr

/-- The payload built by `AriaClient.create_storage_profile`: datastore
default policy, `supportsEncryption` false, `diskProperties` holding only
the provisioning type, compute binding only when truthy. -/
def create_storage_profile_payload (name description regionId : String)
    (tags : List Tag) (provisioningType : String) (defaultItem : Bool)
    (computeHostId : Option String) : StorageCreatePayload :=
  { name := name
    description := description
    defaultItem := defaultItem
    supportsEncryption := false
    tags := tags.map (fun t => ⟨t.key, t.value⟩)
    diskProperties := ⟨some provisioningType, []⟩
    regionId := regionId
    computeHostId := if truthyS computeHostId then computeHostId else none }

/-- One entry of `tags.storage_profiles` in the config.  `provisioningType`
and `defaultItem` carry the constant `.get` defaults (`'thin'`, `False`)
already applied; `description`'s default depends on the name, so it stays
optional. -/
structure StorageEntry where
  name : String
  tags : List Tag
  create : Bool
  compute : Option String
  region : Option String
  description : Option String
  provisioningType : String
  defaultItem : Bool
deriving DecidableEq, Repr

/-- `{s.get('name'): s for s in storage}` then `.get(name)`. -/
def lookupStorageByName (ps : List StorageProfile) (n : String) :
    Option StorageProfile :=
  ps.reverse.find? (fun p => decide (p.name = some n))

/-- `AriaClient.get_storage_profile_detail`: fetch the full document for one
profile id from the live backend state. -/
def get_storage_profile_detail (ps : List StorageProfile) (i : String) :
    Option StorageProfile :=
  ps.find? (fun p => decide (p.id = i))

/-- A cloud account region: `{name, id}`. -/
structure Region where
  name : String
  id : String
deriving DecidableEq, Repr

/-- `{r.get('name'): r.get('id')}` then `.get(n)`. -/
def regionIdLookup (rs : List Region) (n : String) : Option String :=
  (rs.reverse.find? (fun r => decide (r.name = n))).map (·.id)

/-- `{c.get('name'): c.get('id')}` over the fabric computes, then `.get(n)`. -/
def computeIdLookup (cs : List Resource) (n : String) : Option String :=
  (lookupByName cs n).map (·.id)

/-- The compute-cluster binding resolved for one storage entry:
`compute_id = compute_lookup.get(compute_name)` when the configured name is
truthy, else `None`. -/
def storageComputeId (cs : List Resource) (e : StorageEntry) : Option String :=
  if truthyS e.compute then computeIdLookup cs (e.compute.getD "") else none

/-- A storage write as planned or issued by `cmd_process_storage`. -/
inductive StorageOp
  | put (profileId : String) (payload : StoragePutPayload)
  | post (payload : StorageCreatePayload)
deriving DecidableEq, Repr

/-- Decision outcome for one storage entry. -/
inductive StorageVerdict
  | detailFailed
  | converged
  | update (profileId : String) (existing : StorageProfile)
      (computeId : Option String)
  | createNew (payload : StorageCreatePayload)
  | skippedNoRegion
  | skippedNotCreatable
deriving DecidableEq, Repr

/-- The decision `cmd_process_storage` makes for one config entry: the name
lookup uses the profiles prefetched from `orig`, the per-entry detail fetch
reads the live state `cur`.  An existing profile converges only when the
joined-string tag sets match and the compute binding matches
(`(not compute_id) or (existing_compute == compute_id)`); an absent profile
is created only when marked creatable and its region resolves truthy. -/
def storageEntryVerdict (orig cur : List StorageProfile)
    (regions : List Region) (computes : List Resource) (e : StorageEntry) :
    StorageVerdict :=
  let computeId := storageComputeId computes e
  match lookupStorageByName orig e.name with
  | some ps =>
    match get_storage_profile_detail cur ps.id with
    | none => .detailFailed
    | some p =>
      let tagsMatch := tagSetEq p.tags e.tags
      let computeMatches :=
        !truthyS computeId || decide (p.computeHostId = computeId)
      if tagsMatch && computeMatches then .converged
      else .update ps.id p computeId
  | none =>
    if e.create then
      match e.region.bind (regionIdLookup regions) with
      | some rid =>
        if rid = "" then .skippedNoRegion
        else
          .createNew (create_storage_profile_payload e.name
            (e.description.getD (e.name ++ " storage profile")) rid e.tags
            e.provisioningType e.defaultItem computeId)
      | none => .skippedNoRegion
    else .skippedNotCreatable

/-- The write operation (if any) one storage entry produces. -/
def storageEntryOp (orig cur : List StorageProfile) (regions : List Region)
    (computes : List Resource) (e : StorageEntry) : Option StorageOp :=
  match storageEntryVerdict orig cur regions computes e with
  | .update i p cid =>
    some (.put i (update_storage_profile_tags_payload e.tags p cid))
  | .createNew c => some (.post c)
  | _ => none

/-- The document a full-replace PUT leaves on the backend: every field from
the payload, the server-side id and links kept. -/
def putDocument (p : StorageProfile) (pl : StoragePutPayload) : StorageProfile :=
  { id := p.id
    name := pl.name
    description := pl.description
    defaultItem := pl.defaultItem
    supportsEncryption := pl.supportsEncryption
    tags := pl.tags
    regionId := pl.regionId
    linksRegionHref := p.linksRegionHref
    diskProperties := pl.diskProperties
    diskTargetProperties := pl.diskTargetProperties
    computeHostId := pl.computeHostId }

/-- Effect of an accepted PUT on the backend state. -/
def applyStoragePut (cur : List StorageProfile) (i : String)
    (pl : StoragePutPayload) : List StorageProfile :=
  cur.map (fun p => if p.id = i then putDocument p pl else p)

/-- Effect of an accepted POST: the backend stores the created document
under a backend-assigned fresh id. -/
def profileOfCreate (i : String) (c : StorageCreatePayload) : StorageProfile :=
  { id := i
    name := some c.name
    description := c.description
    defaultItem := c.defaultItem
    supportsEncryption := c.supportsEncryption
    tags := c.tags
    regionId := c.regionId
    linksRegionHref := ""
    diskProperties := some c.diskProperties
    diskTargetProperties := none
    computeHostId := c.computeHostId }

/-- The loop of `cmd_process_storage`.  Name, region and compute lookups are
prefetched from the starting state (`orig`, `regions`, `computes`); the
per-entry detail fetch reads the live state `cur`; in execute mode an
accepted write takes effect on `cur` before the next entry is processed,
with `fresh` the supply of backend-assigned ids for creates.  Returns the
planned (dry-run) or issued (execute) ops, counters, and final profiles. -/
def runStorageEntries (dryRun : Bool) (wr : StorageOp → Bool)
    (orig : List StorageProfile) (regions : List Region)
    (computes : List Resource) :
    List StorageEntry → List StorageProfile → List String →
    List StorageOp × Results × List StorageProfile
  | [], cur, _ => ([], Results.zero, cur)
  | e :: rest, cur, fresh =>
    match storageEntryVerdict orig cur regions computes e with
    | .detailFailed =>
      let result := runStorageEntries dryRun wr orig regions computes rest cur fresh
      (result.1, Results.add ⟨0, 0, 1, 0⟩ result.2.1, result.2.2)
    | .converged => runStorageEntries dryRun wr orig regions computes rest cur fresh
    | .update i p cid =>
      let pl := update_storage_profile_tags_payload e.tags p cid
      let op := StorageOp.put i pl
      if dryRun then
        let result := runStorageEntries dryRun wr orig regions computes rest cur fresh
        (op :: result.1, result.2.1, result.2.2)
      else if wr op then
        let result := runStorageEntries dryRun wr orig regions computes rest
          (applyStoragePut cur i pl) fresh
        (op :: result.1, Results.add ⟨0, 1, 0, 0⟩ result.2.1, result.2.2)
      else
        let result := runStorageEntries dryRun wr orig regions computes rest cur fresh
        (op :: result.1, Results.add ⟨0, 0, 1, 0⟩ result.2.1, result.2.2)
    | .createNew c =>
      let op := StorageOp.post c
      if dryRun then
        let result := runStorageEntries dryRun wr orig regions computes rest cur fresh
        (op :: result.1, result.2.1, result.2.2)
      else if wr op then
        match fresh with
        | i :: fresh2 =>
          let result := runStorageEntries dryRun wr orig regions computes rest
            (cur ++ [profileOfCreate i c]) fresh2
          (op :: result.1, Results.add ⟨1, 0, 0, 0⟩ result.2.1, result.2.2)
        | [] =>
          let result := runStorageEntries dryRun wr orig regions computes rest cur []
          (op :: result.1, Results.add ⟨1, 0, 0, 0⟩ result.2.1, result.2.2)
      else
        let result := runStorageEntries dryRun wr orig regions computes rest cur fresh
        (op :: result.1, Results.add ⟨0, 0, 1, 0⟩ result.2.1, result.2.2)
    | .skippedNoRegion =>
      let result := runStorageEntries dryRun wr orig regions computes rest cur fresh
      (result.1, Results.add ⟨0, 0, 0, 1⟩ result.2.1, result.2.2)
    | .skippedNotCreatable =>
      let result := runStorageEntries dryRun wr orig regions computes rest cur fresh
      (result.1, Results.add ⟨0, 0, 0, 1⟩ result.2.1, result.2.2)

/-! ## Flavors, images, config and backend -/

/-- One desired flavor definition: `{name, cpuCount, memoryMB}`. -/
structure FlavorDef where
  name : String
  cpuCount : Nat
  memoryMB : Nat
deriving DecidableEq, Repr

/-- One value of the `flavorMapping` dict in a flavor-profile payload. -/
structure FlavorMappingEntry where
  cpuCount : Nat
  memoryInMB : Nat
deriving DecidableEq, Repr

/-- `flavor_mapping[f['name']] = {...}` over all flavors: a dict keyed by
flavor name, later duplicates overwriting. -/
def buildFlavorMapping (flavors : List FlavorDef) :
    List (String × FlavorMappingEntry) :=
  flavors.foldl (fun acc f => dinsert acc f.name ⟨f.cpuCount, f.memoryMB⟩) []

/-- The POST document built by `AriaClient.create_flavor_profile`. -/
structure FlavorProfilePayload where
  name : String
  description : String
  regionId : String
  flavorMapping : List (String × FlavorMappingEntry)
deriving DecidableEq, Repr

/-- One desired image mapping: a name and the per-region template names
(`templates` dict, iterated in insertion order). -/
structure ImageCfg where
  name : String
  templates : List (String × String)
deriving DecidableEq, Repr

/-- One resolved image entry in a region's batch: mapping name, template
name and the resolved fabric-image id. -/
structure ResolvedImage where
  name : String
  template : String
  id : String
deriving DecidableEq, Repr

/-- A fabric image as listed by the backend: name, id and the region link
href the code parses the region id out of. -/
structure FabricImage where
  name : String
  id : String
  regionHref : String
deriving DecidableEq, Repr

/-- The lookup-building loop of `cmd_process_images`: for every fabric image
with a truthy name, id and parsed region id, assign
`fabric_lookup[(region_id, name)] = img_id`. -/
def buildFabricLookup (imgs : List FabricImage) :
    List ((String × String) × String) :=
  imgs.foldl
    (fun acc img =>
      let rid := extractRegionId img.regionHref
      if img.name != "" && img.id != "" && rid != "" then
        dinsert acc (rid, img.name) img.id
      else acc)
    []

/-- A warning recorded while planning image batches. -/
inductive ImgWarning
  | regionNotFound (regionName mappingName : String)
  | templateNotFound (templateName regionName mappingName : String)
deriving DecidableEq, Repr

/-- The POST document built by `AriaClient.create_image_profile`:
`imageMapping` maps each mapping name to the fabric image id. -/
structure ImageProfilePayload where
  name : String
  description : String
  regionId : String
  imageMapping : List (String × String)
deriving DecidableEq, Repr

/-- `image_mapping[img['name']] = {'id': img['id']}` over a region batch. -/
def buildImageMapping (imgs : List ResolvedImage) : List (String × String) :=
  imgs.foldl (fun acc i => dinsert acc i.name i.id) []

/-- Per-template step of the config loop in `cmd_process_images`: resolve the
region name (falsy id → region warning, skip), then the fabric id by the
composite `(region_id, template_name)` key (falsy → template warning, skip),
else append the resolved entry to that region's batch. -/
def planTemplateStep (resolved : List (String × String))
    (lookup : List ((String × String) × String)) (mappingName : String)
    (acc : (String → List ResolvedImage) × List ImgWarning)
    (rt : String × String) : (String → List ResolvedImage) × List ImgWarning :=
  let rid? := dget resolved rt.1
  if !truthyS rid? then
    (acc.1, acc.2 ++ [.regionNotFound rt.1 mappingName])
  else
    let fid? := dget lookup (rid?.getD "", rt.2)
    if !truthyS fid? then
      (acc.1, acc.2 ++ [.templateNotFound rt.2 rt.1 mappingName])
    else
      (fun x =>
        if x = rt.1 then acc.1 x ++ [⟨mappingName, rt.2, fid?.getD ""⟩]
        else acc.1 x,
       acc.2)

/-- The nested config loop of `cmd_process_images`: for each desired image
mapping, for each `(region, template)` pair, run `planTemplateStep`. -/
def planImages (resolved : List (String × String))
    (lookup : List ((String × String) × String)) :
    List ImageCfg → (String → List ResolvedImage) × List ImgWarning →
    (String → List ResolvedImage) × List ImgWarning
  | [], acc => acc
  | ic :: rest, acc =>
    planImages resolved lookup rest
      (ic.templates.foldl (planTemplateStep resolved lookup ic.name) acc)

/-- The `tags` section of the config.  An absent section is `none` at the
`Config` level (`config.get('tags', {})` falsy → return 1). -/
structure TagsConfig where
  cloudZones : List TagEntry
  networkProfiles : List TagEntry
  compute : List TagEntry
  storageProfiles : List StorageEntry
deriving DecidableEq, Repr

/-- The loaded YAML configuration, restricted to the fields the handlers
read.  `regions` is the list of configured region names. -/
structure Config where
  regions : List String
  flavors : List FlavorDef
  images : List ImageCfg
  flavorProfileName : Option String
  flavorProfileDescription : Option String
  imageProfileName : Option String
  imageProfileDescription : Option String
  tagsSection : Option TagsConfig
deriving DecidableEq, Repr

/-- The live backend state the tool reads and writes: the item lists its
endpoints serve. -/
structure Backend where
  regionsB : List Region
  fabricImages : List FabricImage
  zones : List Resource
  netProfiles : List Resource
  computes : List Resource
  storageProfiles : List StorageProfile
deriving DecidableEq, Repr

/-- Keep the first occurrence of each key, as a Python dict comprehension
does for keys (duplicate config region names collapse; their looked-up
values coincide). -/
def dedupKeysAux {β : Type} (seen : List String) :
    List (String × β) → List (String × β)
  | [] => []
  | kv :: rest =>
    if seen.contains kv.1 then dedupKeysAux seen rest
    else kv :: dedupKeysAux (kv.1 :: seen) rest

def dedupKeys {β : Type} (l : List (String × β)) : List (String × β) :=
  dedupKeysAux [] l

/-- `resolve_regions`: build the name→id lookup from the API listing and keep
the configured region names that are present, as `(name, id)` pairs in dict
order. -/
def resolveRegions (api : List Region) (names : List String) :
    List (String × String) :=
  dedupKeys (names.filterMap (fun n => (regionIdLookup api n).map (fun i => (n, i))))

/-- `cmd_process_flavors`: abort with return code 1 when no region resolves
or no flavors are configured; otherwise plan (or issue) one create per
resolved region, each carrying the whole desired flavor set.  The planned
list is identical in both modes; execute only adds the write calls and a
verification re-fetch that takes no decisions. -/
def runFlavorsCmd (st : Backend) (cfg : Config) :
    List FlavorProfilePayload × Nat :=
  let resolved := resolveRegions st.regionsB cfg.regions
  if resolved.isEmpty then ([], 1)
  else if cfg.flavors.isEmpty then ([], 1)
  else
    let pname := cfg.flavorProfileName.getD "vSphere-flavor-profile"
    let pdesc := cfg.flavorProfileDescription.getD
      ("Flavor profile with " ++ toString cfg.flavors.length ++ " size options")
    (resolved.map (fun ri => ⟨pname, pdesc, ri.2, buildFlavorMapping cfg.flavors⟩), 0)

/-- `cmd_process_images`: abort with return code 1 when no region resolves or
no images are configured; otherwise build the composite-key fabric lookup,
plan each region's batch, and plan (or issue) one create per resolved region
whose batch is non-empty.  The planned list is identical in both modes. -/
def runImagesCmd (st : Backend) (cfg : Config) :
    List ImageProfilePayload × List ImgWarning × Nat :=
  let resolved := resolveRegions st.regionsB cfg.regions
  if resolved.isEmpty then ([], [], 1)
  else if cfg.images.isEmpty then ([], [], 1)
  else
    let lookup := buildFabricLookup st.fabricImages
    let plan := planImages resolved lookup cfg.images (fun _ => [], [])
    let pname := cfg.imageProfileName.getD "vSphere-image-profile"
    let pdesc := cfg.imageProfileDescription.getD "Image profile for VM deployments"
    (resolved.filterMap (fun ri =>
        let imgs := plan.1 ri.1
        if imgs.isEmpty then none
        else some ⟨pname, pdesc, ri.2, buildImageMapping imgs⟩),
     plan.2, 0)

/-- `cmd_process_tags`: a falsy `tags` section returns 1; otherwise the three
sections run in order, each against its own prefetched slice of the backend
state, and the final slices are written back. -/
def runTagsCmd (dryRun : Bool) (wr : TagWriteOp → Bool) (st : Backend)
    (cfg : Config) : List TagWriteOp × Results × Backend × Nat :=
  match cfg.tagsSection with
  | none => ([], Results.zero, st, 1)
  | some tc =>
    let z := runTagSection dryRun wr .cloudZone st.zones tc.cloudZones st.zones
    let n := runTagSection dryRun wr .networkProfile st.netProfiles
      tc.networkProfiles st.netProfiles
    let c := runTagSection dryRun wr .fabricCompute st.computes tc.compute
      st.computes
    (z.1 ++ n.1 ++ c.1,
     (z.2.1.add n.2.1).add c.2.1,
     { st with zones := z.2.2, netProfiles := n.2.2, computes := c.2.2 },
     0)

/-- `cmd_process_storage`: a falsy `storage_profiles` list returns 1;
otherwise the entry loop runs with prefetched lookups and live detail
fetches, and the final profile list is written back. -/
def runStorageCmd (dryRun : Bool) (wr : StorageOp → Bool) (st : Backend)
    (fresh : List String) (cfg : Config) :
    List StorageOp × Results × Backend × Nat :=
  let spConfig := ((cfg.tagsSection.map (·.storageProfiles)).getD [])
  if spConfig.isEmpty then ([], Results.zero, st, 1)
  else
    let r := runStorageEntries dryRun wr st.storageProfiles st.regionsB
      st.computes spConfig st.storageProfiles fresh
    (r.1, r.2.1, { st with storageProfiles := r.2.2 }, 0)

/-! ## Pagination -/

/-- One page of a listing endpoint: HTTP success (status 200), the `content`
array, and whether a `_links.next.href` is present.  A list of pages is the
successive responses the backend would serve along the next-link chain. -/
structure Page where
  ok : Bool
  content : List String
  hasNext : Bool
deriving DecidableEq, Repr

/-- `AriaClient._get_paginated`: accumulate `content` while a next link is
present; a non-200 response breaks out with the results gathered so far. -/
def get_paginated : List Page → List String
  | [] => []
  | p :: rest =>
    if !p.ok then []
    else p.content ++ (if p.hasNext then get_paginated rest else [])

/-- `get_regions` / `get_flavor_profiles` / `get_image_profiles` /
`get_fabric_images` all delegate to `_get_paginated`. -/
def get_regions_listing (pages : List Page) : List String := get_paginated pages

/-- `AriaClient.get_cloud_zones`: one GET, returning only the first
response's `content` (no next-link following). -/
def get_cloud_zones_listing : List Page → List String
  | [] => []
  | p :: _ => if p.ok then p.content else []

/-- `get_network_profiles`: same single-GET shape as `get_cloud_zones`. -/
def get_network_profiles_listing (pages : List Page) : List String :=
  get_cloud_zones_listing pages

/-- `get_storage_profiles`: same single-GET shape as `get_cloud_zones`. -/
def get_storage_profiles_listing (pages : List Page) : List String :=
  get_cloud_zones_listing pages

/-- `get_fabric_computes`: same single-GET shape as `get_cloud_zones`. -/
def get_fabric_computes_listing (pages : List Page) : List String :=
  get_cloud_zones_listing pages

/-- A well-formed page chain: every page is a 200 and every page before the
last advertises a next link. -/
def chainOk : List Page → Bool
  | [] => true
  | [p] => p.ok
  | p :: q :: rest => p.ok && p.hasNext && chainOk (q :: rest)

/-! ## Main dispatch -/

/-- The four resource kinds in the fixed `--all` processing order. -/
inductive Kind
  | flavors
  | images
  | storage
  | tags
deriving DecidableEq, Repr

def kindOrder : List Kind := [.flavors, .images, .storage, .tags]

/-- The return codes the `--all` path checks, in order (the tags handler runs
last, so its code gates nothing). -/
def kindRets (st : Backend) (cfg : Config) : List Nat :=
  [(runFlavorsCmd st cfg).2,
   (runImagesCmd st cfg).2.2,
   if ((cfg.tagsSection.map (·.storageProfiles)).getD []).isEmpty then 1 else 0]

/-- `main`, `--all` path (lines 1643-1669): authentication failure returns
before any processing; otherwise each handler runs in the fixed order
flavors → images → storage → tags, and a nonzero return aborts the
remaining handlers (`if result != 0: return result`).  Returns the kinds
whose handlers were invoked. -/
def processAllKinds (authOk : Bool) (st : Backend) (cfg : Config) : List Kind :=
  if !authOk then []
  else
    Kind.flavors ::
      (if (runFlavorsCmd st cfg).2 ≠ 0 then []
       else Kind.images ::
         (if (runImagesCmd st cfg).2.2 ≠ 0 then []
          else Kind.storage ::
            (if ((cfg.tagsSection.map (·.storageProfiles)).getD []).isEmpty then []
             else [Kind.tags])))

/-! ## Generic lemmas about the dict and lookup helpers -/

theorem dget_eq_some_of {α β : Type} [DecidableEq α] (d : List (α × β))
    (k : α) (v : β) (hex : ∃ kv ∈ d, kv.1 = k)
    (hall : ∀ kv ∈ d, kv.1 = k → kv.2 = v) : dget d k = some v := by
  have hex' : ∃ kv ∈ d.reverse, (fun kv : α × β => decide (kv.1 = k)) kv := by
    obtain ⟨kv, hm, hk⟩ := hex
    exact ⟨kv, List.mem_reverse.mpr hm, by simpa using hk⟩
  have hsome := List.find?_isSome.mpr hex'
  obtain ⟨kv, hkv⟩ := Option.isSome_iff_exists.mp hsome
  have hp := List.find?_some hkv
  have hm := List.mem_of_find?_eq_some hkv
  have hk : kv.1 = k := by simpa using hp
  have hv := hall kv (List.mem_reverse.mp hm) hk
  simp [dget, hkv, hv]

theorem dget_eq_none_of {α β : Type} [DecidableEq α] (d : List (α × β))
    (k : α) (hall : ∀ kv ∈ d, kv.1 ≠ k) : dget d k = none := by
  have : d.reverse.find? (fun kv : α × β => decide (kv.1 = k)) = none := by
    rw [List.find?_eq_none]
    intro kv hm
    simpa using hall kv (List.mem_reverse.mp hm)
  simp [dget, this]

/-- A conditional-insert fold equals the accumulator with the produced
bindings appended, in traversal order. -/
theorem foldl_dinsert_eq_append {α κ β : Type}
    (step : List (κ × β) → α → List (κ × β)) (entry : α → Option (κ × β))
    (hstep : ∀ acc x, step acc x = match entry x with
      | some kv => dinsert acc kv.1 kv.2
      | none => acc) :
    ∀ (l : List α) (acc : List (κ × β)),
      l.foldl step acc = acc ++ l.filterMap entry := by
  intro l
  induction l with
  | nil => intro acc; simp
  | cons x rest ih =>
    intro acc
    rw [List.foldl_cons, ih, hstep]
    cases hx : entry x with
    | none => simp [List.filterMap_cons, hx]
    | some kv => simp [List.filterMap_cons, hx, dinsert]

/-- `find?` commutes with a map that does not change the predicate's view of
the list elements. -/
theorem find?_map_congr {α : Type} (f : α → α) (p : α → Bool) :
    ∀ l : List α, (∀ a ∈ l, p (f a) = p a) →
      (l.map f).find? p = (l.find? p).map f := by
  intro l
  induction l with
  | nil => intro; rfl
  | cons a rest ih =>
    intro h
    by_cases ha : p a
    · rw [List.map_cons, List.find?_cons_of_pos, List.find?_cons_of_pos] <;>
        simp [ha, h a (by simp)]
    · rw [List.map_cons, List.find?_cons_of_neg, List.find?_cons_of_neg,
        ih (fun a ha => h a (by simp [ha]))] <;>
        simp [ha, h a (by simp)]

/-! ## Tag section lemmas -/

theorem lookupByName_map (rs : List Resource) (f : Resource → Resource)
    (h : ∀ r ∈ rs, (f r).name = r.name) (n : String) :
    lookupByName (rs.map f) n = (lookupByName rs n).map f := by
  unfold lookupByName
  rw [← List.map_reverse, find?_map_congr]
  intro a ha
  simp [h a (List.mem_reverse.mp ha)]

/-- Batch application of accepted tag writes. -/
def applyTagWrites (cur : List Resource) (ops : List TagWriteOp) :
    List Resource :=
  ops.foldl applyTagWrite cur

/-- The per-resource view of `applyTagWrites`. -/
def applyOpsRes (ops : List TagWriteOp) (r : Resource) : Resource :=
  ops.foldl
    (fun r op => if r.id = op.resId then { r with tags := op.tags } else r) r

theorem applyTagWrites_eq_map (ops : List TagWriteOp) :
    ∀ cur : List Resource, applyTagWrites cur ops = cur.map (applyOpsRes ops) := by
  induction ops with
  | nil =>
    intro cur
    have h : applyOpsRes [] = id := rfl
    simp [applyTagWrites, h]
  | cons op rest ih =>
    intro cur
    have : applyTagWrites cur (op :: rest) = applyTagWrites (applyTagWrite cur op) rest := rfl
    rw [this, ih, applyTagWrite, List.map_map]
    rfl

theorem applyOpsRes_id (ops : List TagWriteOp) :
    ∀ r : Resource, (applyOpsRes ops r).id = r.id := by
  induction ops with
  | nil => intro r; rfl
  | cons op rest ih =>
    intro r
    show (applyOpsRes rest _).id = r.id
    rw [ih]
    by_cases h : r.id = op.resId <;> simp [h]

theorem applyOpsRes_name (ops : List TagWriteOp) :
    ∀ r : Resource, (applyOpsRes ops r).name = r.name := by
  induction ops with
  | nil => intro r; rfl
  | cons op rest ih =>
    intro r
    show (applyOpsRes rest _).name = r.name
    rw [ih]
    by_cases h : r.id = op.resId <;> simp [h]

theorem applyOpsRes_no_hit (ops : List TagWriteOp) :
    ∀ r : Resource, (∀ op ∈ ops, op.resId ≠ r.id) → applyOpsRes ops r = r := by
  induction ops with
  | nil => intro r _; rfl
  | cons op rest ih =>
    intro r h
    show applyOpsRes rest
      (if r.id = op.resId then { r with tags := op.tags } else r) = r
    rw [if_neg (fun hc => h op (by simp) hc.symm)]
    exact ih r (fun o ho => h o (by simp [ho]))

theorem applyOpsRes_tags_keep (ops : List TagWriteOp) (T : List Tag) :
    ∀ r : Resource, r.tags = T → (∀ op ∈ ops, op.resId = r.id → op.tags = T) →
    (applyOpsRes ops r).tags = T := by
  induction ops with
  | nil => intro r h _; exact h
  | cons op rest ih =>
    intro r h hall
    show (applyOpsRes rest
      (if r.id = op.resId then { r with tags := op.tags } else r)).tags = T
    by_cases hc : r.id = op.resId
    · rw [if_pos hc]
      exact ih _ (hall op (by simp) hc.symm)
        (fun o ho hid => hall o (by simp [ho]) (by simpa using hid))
    · rw [if_neg hc]
      exact ih r h (fun o ho => hall o (by simp [ho]))

theorem applyOpsRes_tags_hit (ops : List TagWriteOp) (T : List Tag) :
    ∀ r : Resource, (∀ op ∈ ops, op.resId = r.id → op.tags = T) →
    (∃ op ∈ ops, op.resId = r.id) → (applyOpsRes ops r).tags = T := by
  induction ops with
  | nil => intro r _ hex; exact absurd hex (by simp)
  | cons op rest ih =>
    intro r hall hex
    show (applyOpsRes rest
      (if r.id = op.resId then { r with tags := op.tags } else r)).tags = T
    by_cases hc : r.id = op.resId
    · rw [if_pos hc]
      exact applyOpsRes_tags_keep rest T _ (hall op (by simp) hc.symm)
        (fun o ho hid => hall o (by simp [ho]) (by simpa using hid))
    · rw [if_neg hc]
      obtain ⟨o, ho, hid⟩ := hex
      rcases List.mem_cons.mp ho with h1 | h2
      · exact absurd (h1 ▸ hid).symm hc
      · exact ih r (fun o ho => hall o (by simp [ho])) ⟨o, h2, hid⟩

theorem runTagSection_ops (dryRun : Bool) (wr : TagWriteOp → Bool)
    (kind : TagKind) (rs0 : List Resource) :
    ∀ (es : List TagEntry) (cur : List Resource),
      (runTagSection dryRun wr kind rs0 es cur).1 =
        es.filterMap (tagEntryOp kind rs0) := by
  intro es
  induction es with
  | nil => intro cur; rfl
  | cons e rest ih =>
    intro cur
    rw [List.filterMap_cons]
    cases hv : tagEntryVerdict rs0 e with
    | notFound => simp [runTagSection, hv, tagEntryOp, ih]
    | converged => simp [runTagSection, hv, tagEntryOp, ih]
    | needsUpdate i =>
      cases dryRun with
      | true => simp [runTagSection, hv, tagEntryOp, ih]
      | false =>
        by_cases hw : wr ⟨kind, i, e.tags⟩ <;>
          simp [runTagSection, hv, tagEntryOp, ih, hw]

theorem runTagSection_final (kind : TagKind) (rs0 : List Resource) :
    ∀ (es : List TagEntry) (cur : List Resource),
      (runTagSection false (fun _ => true) kind rs0 es cur).2.2 =
        applyTagWrites cur (es.filterMap (tagEntryOp kind rs0)) := by
  intro es
  induction es with
  | nil => intro cur; rfl
  | cons e rest ih =>
    intro cur
    rw [List.filterMap_cons]
    cases hv : tagEntryVerdict rs0 e with
    | notFound => simp [runTagSection, hv, tagEntryOp, ih]
    | converged => simp [runTagSection, hv, tagEntryOp, ih]
    | needsUpdate i =>
      simp [runTagSection, hv, tagEntryOp, ih, applyTagWrites]

/-- In dry-run mode no state changes. -/
theorem runTagSection_final_dry (wr : TagWriteOp → Bool) (kind : TagKind)
    (rs0 : List Resource) :
    ∀ (es : List TagEntry) (cur : List Resource),
      (runTagSection true wr kind rs0 es cur).2.2 = cur := by
  intro es
  induction es with
  | nil => intro cur; rfl
  | cons e rest ih =>
    intro cur
    cases hv : tagEntryVerdict rs0 e with
    | notFound => simp [runTagSection, hv, ih]
    | converged => simp [runTagSection, hv, ih]
    | needsUpdate i => simp [runTagSection, hv, ih]

theorem lookupByName_mem {rs : List Resource} {n : String} {r : Resource}
    (h : lookupByName rs n = some r) : r ∈ rs ∧ r.name = n := by
  have hm := List.mem_of_find?_eq_some h
  have hp := List.find?_some h
  exact ⟨List.mem_reverse.mp hm, of_decide_eq_true hp⟩

theorem tagEntryOp_eq_some {kind : TagKind} {rs : List Resource} {e : TagEntry}
    {op : TagWriteOp} (h : tagEntryOp kind rs e = some op) :
    ∃ r, lookupByName rs e.name = some r ∧ tagSetEq r.tags e.tags = false ∧
      op = ⟨kind, r.id, e.tags⟩ := by
  unfold tagEntryOp tagEntryVerdict at h
  cases hlk : lookupByName rs e.name with
  | none => rw [hlk] at h; simp at h
  | some r =>
    rw [hlk] at h
    by_cases hc : tagSetEq r.tags e.tags
    · simp [hc] at h
    · simp [hc] at h
      exact ⟨r, rfl, by simpa using hc, h.symm⟩

/-- Core idempotence of one tag section: applying the writes a run issues
and deciding the same entries again produces no write at all, provided the
configured names are distinct and the backend resources have distinct ids. -/
theorem tagSection_second_run_empty (kind : TagKind) (rs : List Resource)
    (es : List TagEntry) (hn : (es.map TagEntry.name).Nodup)
    (hi : (rs.map Resource.id).Nodup) :
    es.filterMap (tagEntryOp kind
      (applyTagWrites rs (es.filterMap (tagEntryOp kind rs)))) = [] := by
  set ops := es.filterMap (tagEntryOp kind rs) with hops
  rw [applyTagWrites_eq_map]
  apply List.filterMap_eq_nil_iff.mpr
  intro e he
  have hlkmap : ∀ n, lookupByName (rs.map (applyOpsRes ops)) n =
      (lookupByName rs n).map (applyOpsRes ops) :=
    lookupByName_map rs _ (fun r _ => applyOpsRes_name ops r)
  cases hlk : lookupByName rs e.name with
  | none =>
    simp [tagEntryOp, tagEntryVerdict, hlkmap, hlk]
  | some r =>
    obtain ⟨hrmem, hrname⟩ := lookupByName_mem hlk
    have key : ∀ op ∈ ops, op.resId = r.id →
        op = ⟨kind, r.id, e.tags⟩ ∧ tagSetEq r.tags e.tags = false := by
      intro op hop hid
      rw [hops] at hop
      obtain ⟨e', he', hopeq⟩ := List.mem_filterMap.mp hop
      obtain ⟨r', hlk', hne', hform⟩ := tagEntryOp_eq_some hopeq
      obtain ⟨hr'mem, hr'name⟩ := lookupByName_mem hlk'
      have hrid : r'.id = r.id := by rw [← hid, hform]
      have hreq : r' = r := List.inj_on_of_nodup_map hi hr'mem hrmem hrid
      have hename : e'.name = e.name := by rw [← hr'name, hreq, hrname]
      have heeq : e' = e := List.inj_on_of_nodup_map hn he' he hename
      subst heeq
      rw [hlk'] at hlk
      have : r' = r := by injection hlk
      subst this
      exact ⟨hform, hne'⟩
    by_cases hc : tagSetEq r.tags e.tags
    · have hnohit : ∀ op ∈ ops, op.resId ≠ r.id := by
        intro op hop hid
        exact absurd hc (by simpa using (key op hop hid).2)
      have hfix : applyOpsRes ops r = r := applyOpsRes_no_hit ops r hnohit
      simp [tagEntryOp, tagEntryVerdict, hlkmap, hlk, hfix, hc]
    · have hc' : tagSetEq r.tags e.tags = false := by
        simpa using hc
      have hmem : (⟨kind, r.id, e.tags⟩ : TagWriteOp) ∈ ops := by
        rw [hops]
        exact List.mem_filterMap.mpr
          ⟨e, he, by simp [tagEntryOp, tagEntryVerdict, hlk, hc']⟩
      have htags : (applyOpsRes ops r).tags = e.tags :=
        applyOpsRes_tags_hit ops e.tags r
          (fun op hop hid => by rw [(key op hop hid).1])
          ⟨_, hmem, rfl⟩
      simp [tagEntryOp, tagEntryVerdict, hlkmap, hlk, htags, tagSetEq_refl]

/-! ## Tag section counters -/

/-- The entry counts as updated: a write was issued and accepted. -/
def tagUpdatedP (wr : TagWriteOp → Bool) (kind : TagKind)
    (rs : List Resource) (e : TagEntry) : Bool :=
  match tagEntryOp kind rs e with
  | some op => wr op
  | none => false

/-- The entry counts as failed: a write was issued and rejected. -/
def tagFailedP (wr : TagWriteOp → Bool) (kind : TagKind)
    (rs : List Resource) (e : TagEntry) : Bool :=
  match tagEntryOp kind rs e with
  | some op => !wr op
  | none => false

/-- The entry counts as skipped: the resource was not found. -/
def tagSkippedP (rs : List Resource) (e : TagEntry) : Bool :=
  decide (tagEntryVerdict rs e = .notFound)

/-- The entry was already converged (counted nowhere). -/
def tagConvergedP (rs : List Resource) (e : TagEntry) : Bool :=
  decide (tagEntryVerdict rs e = .converged)

theorem runTagSection_results (wr : TagWriteOp → Bool) (kind : TagKind)
    (rs0 : List Resource) :
    ∀ (es : List TagEntry) (cur : List Resource),
      (runTagSection false wr kind rs0 es cur).2.1 =
        ⟨0, es.countP (tagUpdatedP wr kind rs0),
            es.countP (tagFailedP wr kind rs0),
            es.countP (tagSkippedP rs0)⟩ := by
  intro es
  induction es with
  | nil => intro cur; rfl
  | cons e rest ih =>
    intro cur
    cases hv : tagEntryVerdict rs0 e with
    | notFound =>
      simp [runTagSection, hv, ih, List.countP_cons, tagUpdatedP, tagFailedP,
        tagSkippedP, tagEntryOp, Results.add]
      omega
    | converged =>
      simp [runTagSection, hv, ih, List.countP_cons, tagUpdatedP, tagFailedP,
        tagSkippedP, tagEntryOp, Results.add]
    | needsUpdate i =>
      by_cases hw : wr ⟨kind, i, e.tags⟩ <;>
        · simp [runTagSection, hv, ih, List.countP_cons, tagUpdatedP, tagFailedP,
            tagSkippedP, tagEntryOp, Results.add, hw]
          omega

theorem tag_counts_partition (wr : TagWriteOp → Bool) (kind : TagKind)
    (rs : List Resource) :
    ∀ es : List TagEntry,
      es.countP (tagUpdatedP wr kind rs) + es.countP (tagFailedP wr kind rs) +
        es.countP (tagSkippedP rs) + es.countP (tagConvergedP rs) =
      es.length := by
  intro es
  induction es with
  | nil => rfl
  | cons e rest ih =>
    rw [List.countP_cons, List.countP_cons, List.countP_cons, List.countP_cons,
      List.length_cons]
    cases hv : tagEntryVerdict rs e with
    | notFound =>
      simp only [tagUpdatedP, tagFailedP, tagSkippedP, tagConvergedP,
        tagEntryOp, hv]
      simp
      omega
    | converged =>
      simp only [tagUpdatedP, tagFailedP, tagSkippedP, tagConvergedP,
        tagEntryOp, hv]
      simp
      omega
    | needsUpdate i =>
      by_cases hw : wr ⟨kind, i, e.tags⟩ <;>
        · simp only [tagUpdatedP, tagFailedP, tagSkippedP, tagConvergedP,
            tagEntryOp, hv]
          simp [hw]
          omega

/-! ## Storage lemmas -/

theorem lookupStorageByName_mem {ps : List StorageProfile} {n : String}
    {p : StorageProfile} (h : lookupStorageByName ps n = some p) :
    p ∈ ps ∧ p.name = some n := by
  have hm := List.mem_of_find?_eq_some h
  have hp := List.find?_some h
  exact ⟨List.mem_reverse.mp hm, of_decide_eq_true hp⟩

theorem detail_mem {ps : List StorageProfile} {i : String} {p : StorageProfile}
    (h : get_storage_profile_detail ps i = some p) : p ∈ ps ∧ p.id = i := by
  have hm := List.mem_of_find?_eq_some h
  have hp := List.find?_some h
  exact ⟨hm, of_decide_eq_true hp⟩

/-- With distinct profile ids, fetching a member's id returns exactly that
member. -/
theorem detail_of_mem (ps : List StorageProfile)
    (hi : (ps.map StorageProfile.id).Nodup) (p : StorageProfile) (hp : p ∈ ps) :
    get_storage_profile_detail ps p.id = some p := by
  have hsome : (ps.find? (fun q => decide (q.id = p.id))).isSome :=
    List.find?_isSome.mpr ⟨p, hp, by simp⟩
  obtain ⟨q, hq⟩ := Option.isSome_iff_exists.mp hsome
  obtain ⟨hqm, hqi⟩ := detail_mem hq
  have : q = p := List.inj_on_of_nodup_map hi hqm hp hqi
  rw [get_storage_profile_detail, hq, this]

theorem lookupStorageByName_map (ps : List StorageProfile)
    (f : StorageProfile → StorageProfile)
    (h : ∀ p ∈ ps, (f p).name = p.name) (n : String) :
    lookupStorageByName (ps.map f) n = (lookupStorageByName ps n).map f := by
  unfold lookupStorageByName
  rw [← List.map_reverse, find?_map_congr]
  intro a ha
  simp [h a (List.mem_reverse.mp ha)]

theorem lookupStorageByName_append (a b : List StorageProfile) (n : String) :
    lookupStorageByName (a ++ b) n =
      (lookupStorageByName b n).or (lookupStorageByName a n) := by
  unfold lookupStorageByName
  rw [List.reverse_append, List.find?_append]

theorem detail_append (a b : List StorageProfile) (i : String) :
    get_storage_profile_detail (a ++ b) i =
      (get_storage_profile_detail a i).or (get_storage_profile_detail b i) := by
  unfold get_storage_profile_detail
  rw [List.find?_append]

theorem detail_map (ps : List StorageProfile)
    (f : StorageProfile → StorageProfile)
    (h : ∀ p ∈ ps, (f p).id = p.id) (i : String) :
    get_storage_profile_detail (ps.map f) i =
      (get_storage_profile_detail ps i).map f := by
  unfold get_storage_profile_detail
  rw [find?_map_congr]
  intro a ha
  simp [h a ha]

theorem detail_none_of (ps : List StorageProfile) (i : String)
    (h : ∀ p ∈ ps, p.id ≠ i) : get_storage_profile_detail ps i = none := by
  unfold get_storage_profile_detail
  rw [List.find?_eq_none]
  intro p hp
  simpa using h p hp

/-- A put to a different id leaves a detail fetch unchanged. -/
theorem detail_applyPut_ne (cur : List StorageProfile) (i j : String)
    (pl : StoragePutPayload) (hij : j ≠ i) :
    get_storage_profile_detail (applyStoragePut cur i pl) j =
      get_storage_profile_detail cur j := by
  unfold applyStoragePut
  rw [detail_map]
  · cases hd : get_storage_profile_detail cur j with
    | none => rfl
    | some q =>
      have hq := (detail_mem hd).2
      simp [hq, hij]
  · intro p _
    by_cases hp : p.id = i <;> simp [hp, putDocument]

/-- An append cannot shadow a detail fetch that already succeeds. -/
theorem detail_append_of_isSome (cur l2 : List StorageProfile) (j : String)
    (h : (get_storage_profile_detail cur j).isSome) :
    get_storage_profile_detail (cur ++ l2) j =
      get_storage_profile_detail cur j := by
  rw [detail_append]
  obtain ⟨q, hq⟩ := Option.isSome_iff_exists.mp h
  simp [hq]

/-- Batch application of accepted storage writes, consuming one fresh id per
create. -/
def applyStorageOps : List StorageProfile → List String → List StorageOp →
    List StorageProfile
  | cur, _, [] => cur
  | cur, fresh, .put i pl :: rest =>
    applyStorageOps (applyStoragePut cur i pl) fresh rest
  | cur, i :: fresh2, .post c :: rest =>
    applyStorageOps (cur ++ [profileOfCreate i c]) fresh2 rest
  | cur, [], .post _ :: rest => applyStorageOps cur [] rest

/-- The per-profile view of the puts in a batch of storage writes. -/
def applyPutsRes (ops : List StorageOp) (p : StorageProfile) : StorageProfile :=
  ops.foldl
    (fun p op => match op with
      | .put i pl => if p.id = i then putDocument p pl else p
      | .post _ => p) p

/-- The create payloads of a batch, in order. -/
def postsOf (ops : List StorageOp) : List StorageCreatePayload :=
  ops.filterMap (fun op => match op with | .post c => some c | _ => none)

theorem applyPutsRes_id (ops : List StorageOp) :
    ∀ p : StorageProfile, (applyPutsRes ops p).id = p.id := by
  induction ops with
  | nil => intro p; rfl
  | cons op rest ih =>
    intro p
    cases op with
    | put i pl =>
      show (applyPutsRes rest (if p.id = i then putDocument p pl else p)).id = p.id
      rw [ih]
      by_cases h : p.id = i <;> simp [h, putDocument]
    | post c =>
      show (applyPutsRes rest p).id = p.id
      exact ih p

theorem applyPutsRes_no_hit (ops : List StorageOp) :
    ∀ p : StorageProfile, (∀ i pl, StorageOp.put i pl ∈ ops → i ≠ p.id) →
      applyPutsRes ops p = p := by
  induction ops with
  | nil => intro p _; rfl
  | cons op rest ih =>
    intro p h
    cases op with
    | put i pl =>
      show applyPutsRes rest (if p.id = i then putDocument p pl else p) = p
      rw [if_neg (fun hc => h i pl (by simp) hc.symm)]
      exact ih p (fun i pl hm => h i pl (by simp [hm]))
    | post c =>
      show applyPutsRes rest p = p
      exact ih p (fun i pl hm => h i pl (by simp [hm]))

theorem putDocument_idem (p : StorageProfile) (pl : StoragePutPayload) :
    putDocument (putDocument p pl) pl = putDocument p pl := rfl

theorem applyPutsRes_keep (ops : List StorageOp) (pl0 : StoragePutPayload) :
    ∀ p : StorageProfile,
      (∀ i pl, StorageOp.put i pl ∈ ops → i = p.id → pl = pl0) →
      putDocument p pl0 = p → applyPutsRes ops p = p := by
  induction ops with
  | nil => intro p _ _; rfl
  | cons op rest ih =>
    intro p hall hfix
    cases op with
    | put i pl =>
      show applyPutsRes rest (if p.id = i then putDocument p pl else p) = p
      by_cases hc : p.id = i
      · rw [if_pos hc, hall i pl (by simp) hc.symm, hfix]
        exact ih p (fun i pl hm => hall i pl (by simp [hm])) hfix
      · rw [if_neg hc]
        exact ih p (fun i pl hm => hall i pl (by simp [hm])) hfix
    | post c =>
      show applyPutsRes rest p = p
      exact ih p (fun i pl hm => hall i pl (by simp [hm])) hfix

theorem applyPutsRes_hit (ops : List StorageOp) (pl0 : StoragePutPayload) :
    ∀ p : StorageProfile,
      (∀ i pl, StorageOp.put i pl ∈ ops → i = p.id → pl = pl0) →
      (StorageOp.put p.id pl0 ∈ ops) →
      applyPutsRes ops p = putDocument p pl0 := by
  induction ops with
  | nil => intro p _ hex; exact absurd hex (by simp)
  | cons op rest ih =>
    intro p hall hex
    cases op with
    | put i pl =>
      show applyPutsRes rest (if p.id = i then putDocument p pl else p) =
        putDocument p pl0
      by_cases hc : p.id = i
      · rw [if_pos hc, hall i pl (by simp) hc.symm]
        refine applyPutsRes_keep rest pl0 _ ?_ (putDocument_idem p pl0)
        intro i' pl' hm hid
        exact hall i' pl' (by simp [hm]) (by simpa [putDocument] using hid)
      · rw [if_neg hc]
        rcases List.mem_cons.mp hex with h1 | h2
        · cases h1; exact absurd rfl hc
        · exact ih p (fun i pl hm => hall i pl (by simp [hm])) h2
    | post c =>
      show applyPutsRes rest p = putDocument p pl0
      rcases List.mem_cons.mp hex with h1 | h2
      · exact absurd h1 (by simp)
      · exact ih p (fun i pl hm => hall i pl (by simp [hm])) h2

theorem profileOfCreate_id (i : String) (c : StorageCreatePayload) :
    (profileOfCreate i c).id = i := rfl

theorem applyStorageOps_put (cur : List StorageProfile) (fresh : List String)
    (i : String) (pl : StoragePutPayload) (rest : List StorageOp) :
    applyStorageOps cur fresh (.put i pl :: rest) =
      applyStorageOps (applyStoragePut cur i pl) fresh rest := by
  cases fresh <;> rfl

/-- With put targets disjoint from the fresh id supply, a batch of storage
writes maps the original profiles through the put fold and appends the
created documents, paired with fresh ids in order. -/
theorem applyStorageOps_structure :
    ∀ (ops : List StorageOp) (cur : List StorageProfile) (fresh : List String),
      (∀ i pl, StorageOp.put i pl ∈ ops → i ∉ fresh) →
      applyStorageOps cur fresh ops =
        cur.map (applyPutsRes ops) ++
          List.zipWith profileOfCreate fresh (postsOf ops) := by
  intro ops
  induction ops with
  | nil =>
    intro cur fresh _
    have h : applyPutsRes [] = id := rfl
    simp [applyStorageOps, postsOf, h]
  | cons op rest ih =>
    intro cur fresh hd
    cases op with
    | put i pl =>
      rw [applyStorageOps_put]
      rw [ih _ fresh (fun i' pl' hm => hd i' pl' (by simp [hm]))]
      unfold applyStoragePut
      rw [List.map_map]
      have hpost : postsOf (StorageOp.put i pl :: rest) = postsOf rest := by
        simp [postsOf]
      rw [hpost]
      rfl
    | post c =>
      cases fresh with
      | nil =>
        show applyStorageOps cur [] rest = _
        rw [ih cur [] (fun i' pl' hm => hd i' pl' (by simp [hm]))]
        have : applyPutsRes (StorageOp.post c :: rest) = applyPutsRes rest := rfl
        simp [this]
      | cons f fresh2 =>
        show applyStorageOps (cur ++ [profileOfCreate f c]) fresh2 rest = _
        rw [ih _ fresh2 (fun i' pl' hm => by
          intro hmem
          exact hd i' pl' (by simp [hm]) (by simp [hmem]))]
        rw [List.map_append]
        have hone : [profileOfCreate f c].map (applyPutsRes rest) =
            [profileOfCreate f c] := by
          rw [List.map_singleton]
          rw [applyPutsRes_no_hit rest _ (fun i' pl' hm => by
            rw [profileOfCreate_id]
            intro hc
            exact hd i' pl' (by simp [hm]) (by simp [hc]))]
        rw [hone]
        have hpost : postsOf (StorageOp.post c :: rest) = c :: postsOf rest := by
          simp [postsOf]
        rw [hpost, List.zipWith_cons_cons]
        have : applyPutsRes (StorageOp.post c :: rest) = applyPutsRes rest := rfl
        rw [this, List.append_assoc]
        rfl

/-- The live state only enters a storage decision through the detail fetch at
the summary's id. -/
theorem storageEntryVerdict_detail_congr (orig cur cur2 : List StorageProfile)
    (regions : List Region) (computes : List Resource) (e : StorageEntry)
    (h : ∀ sp, lookupStorageByName orig e.name = some sp →
      get_storage_profile_detail cur sp.id =
        get_storage_profile_detail cur2 sp.id) :
    storageEntryVerdict orig cur regions computes e =
      storageEntryVerdict orig cur2 regions computes e := by
  unfold storageEntryVerdict
  cases hlk : lookupStorageByName orig e.name with
  | none => rfl
  | some sp => simp [h sp hlk]

theorem storageEntryOp_detail_congr (orig cur cur2 : List StorageProfile)
    (regions : List Region) (computes : List Resource) (e : StorageEntry)
    (h : ∀ sp, lookupStorageByName orig e.name = some sp →
      get_storage_profile_detail cur sp.id =
        get_storage_profile_detail cur2 sp.id) :
    storageEntryOp orig cur regions computes e =
      storageEntryOp orig cur2 regions computes e := by
  unfold storageEntryOp
  rw [storageEntryVerdict_detail_congr orig cur cur2 regions computes e h]

/-- Dry-run never touches the state, so its planned ops are the static
per-entry decisions against the starting state. -/
theorem runStorageEntries_ops_dry (wr : StorageOp → Bool)
    (orig : List StorageProfile) (regions : List Region)
    (computes : List Resource) :
    ∀ (es : List StorageEntry) (cur : List StorageProfile)
      (fresh : List String),
      (runStorageEntries true wr orig regions computes es cur fresh).1 =
        es.filterMap (storageEntryOp orig cur regions computes) := by
  intro es
  induction es with
  | nil => intro cur fresh; rfl
  | cons e rest ih =>
    intro cur fresh
    rw [List.filterMap_cons]
    cases hv : storageEntryVerdict orig cur regions computes e with
    | detailFailed => simp [runStorageEntries, hv, storageEntryOp, ih]
    | converged => simp [runStorageEntries, hv, storageEntryOp, ih]
    | update i p cid => simp [runStorageEntries, hv, storageEntryOp, ih]
    | createNew c => simp [runStorageEntries, hv, storageEntryOp, ih]
    | skippedNoRegion => simp [runStorageEntries, hv, storageEntryOp, ih]
    | skippedNotCreatable => simp [runStorageEntries, hv, storageEntryOp, ih]

theorem runStorageEntries_final_dry (wr : StorageOp → Bool)
    (orig : List StorageProfile) (regions : List Region)
    (computes : List Resource) :
    ∀ (es : List StorageEntry) (cur : List StorageProfile)
      (fresh : List String),
      (runStorageEntries true wr orig regions computes es cur fresh).2.2 = cur := by
  intro es
  induction es with
  | nil => intro cur fresh; rfl
  | cons e rest ih =>
    intro cur fresh
    cases hv : storageEntryVerdict orig cur regions computes e with
    | detailFailed => simp [runStorageEntries, hv, ih]
    | converged => simp [runStorageEntries, hv, ih]
    | update i p cid => simp [runStorageEntries, hv, ih]
    | createNew c => simp [runStorageEntries, hv, ih]
    | skippedNoRegion => simp [runStorageEntries, hv, ih]
    | skippedNotCreatable => simp [runStorageEntries, hv, ih]

theorem storageVerdict_update_inv {orig cur : List StorageProfile}
    {regions : List Region} {computes : List Resource} {e : StorageEntry}
    {i : String} {p : StorageProfile} {cid : Option String}
    (h : storageEntryVerdict orig cur regions computes e = .update i p cid) :
    ∃ ps, lookupStorageByName orig e.name = some ps ∧ i = ps.id ∧
      get_storage_profile_detail cur ps.id = some p ∧
      cid = storageComputeId computes e ∧
      (tagSetEq p.tags e.tags &&
        (!truthyS (storageComputeId computes e) ||
          decide (p.computeHostId = storageComputeId computes e))) = false := by
  unfold storageEntryVerdict at h
  cases hlk : lookupStorageByName orig e.name with
  | none =>
    rw [hlk] at h
    by_cases hc : e.create
    · cases hr : e.region.bind (regionIdLookup regions) with
      | none => simp [hc, hr] at h
      | some rid => by_cases hrid : rid = "" <;> simp [hc, hr, hrid] at h
    · simp [hc] at h
  | some ps =>
    rw [hlk] at h
    cases hd : get_storage_profile_detail cur ps.id with
    | none => simp [hd] at h
    | some q =>
      simp only [hd] at h
      by_cases hm : (tagSetEq q.tags e.tags &&
          (!truthyS (storageComputeId computes e) ||
            decide (q.computeHostId = storageComputeId computes e))) = true
      · simp [hm] at h
      · rw [if_neg hm] at h
        cases h
        exact ⟨ps, rfl, rfl, hd, rfl, by simpa using hm⟩

/-- In execute mode, as long as configured names are distinct, backend ids
are distinct, and fresh ids collide with nothing, the live detail re-fetches
see exactly what the starting state held, so the issued ops are the static
per-entry decisions against the starting state. -/
theorem runStorageEntries_ops_exec (wr : StorageOp → Bool)
    (orig : List StorageProfile) (regions : List Region)
    (computes : List Resource)
    (hi : (orig.map StorageProfile.id).Nodup) :
    ∀ (es : List StorageEntry) (cur : List StorageProfile)
      (fresh : List String),
      (es.map StorageEntry.name).Nodup →
      (∀ f ∈ fresh, ∀ p ∈ orig, f ≠ p.id) →
      (∀ e ∈ es, ∀ sp, lookupStorageByName orig e.name = some sp →
        get_storage_profile_detail cur sp.id =
          get_storage_profile_detail orig sp.id) →
      (runStorageEntries false wr orig regions computes es cur fresh).1 =
        es.filterMap (storageEntryOp orig orig regions computes) := by
  intro es
  induction es with
  | nil => intro cur fresh _ _ _; rfl
  | cons e rest ih =>
    intro cur fresh hn hf hagree
    rw [List.map_cons] at hn
    have hn' := List.nodup_cons.mp hn
    have htl : (rest.map StorageEntry.name).Nodup := hn'.2
    have hne : ∀ e' ∈ rest, e'.name ≠ e.name := by
      intro e' he' hc
      exact hn'.1 (hc ▸ List.mem_map_of_mem StorageEntry.name he')
    have hagtl : ∀ e' ∈ rest, ∀ sp, lookupStorageByName orig e'.name = some sp →
        get_storage_profile_detail cur sp.id =
          get_storage_profile_detail orig sp.id :=
      fun e' he' => hagree e' (by simp [he'])
    have hcv : storageEntryVerdict orig cur regions computes e =
        storageEntryVerdict orig orig regions computes e :=
      storageEntryVerdict_detail_congr orig cur orig regions computes e
        (fun sp hsp => hagree e (by simp) sp hsp)
    rw [List.filterMap_cons]
    cases hv : storageEntryVerdict orig orig regions computes e with
    | detailFailed =>
      simp [runStorageEntries, hcv.trans hv, storageEntryOp, hv,
        ih cur fresh htl hf hagtl]
    | converged =>
      simp [runStorageEntries, hcv.trans hv, storageEntryOp, hv,
        ih cur fresh htl hf hagtl]
    | skippedNoRegion =>
      simp [runStorageEntries, hcv.trans hv, storageEntryOp, hv,
        ih cur fresh htl hf hagtl]
    | skippedNotCreatable =>
      simp [runStorageEntries, hcv.trans hv, storageEntryOp, hv,
        ih cur fresh htl hf hagtl]
    | update i p cid =>
      obtain ⟨ps, hps, hips, _, _, _⟩ := storageVerdict_update_inv hv
      have hid_ne : ∀ e' ∈ rest, ∀ sp',
          lookupStorageByName orig e'.name = some sp' → sp'.id ≠ i := by
        intro e' he' sp' hsp' hc
        obtain ⟨hspm, hspn⟩ := lookupStorageByName_mem hsp'
        obtain ⟨hpsm, hpsn⟩ := lookupStorageByName_mem hps
        have heq : sp' = ps :=
          List.inj_on_of_nodup_map hi hspm hpsm (hc.trans hips)
        apply hne e' he'
        have := hspn.symm.trans (heq ▸ hpsn)
        injection this
      by_cases hw : wr (.put i (update_storage_profile_tags_payload e.tags p cid))
      · have hag' : ∀ e' ∈ rest, ∀ sp',
            lookupStorageByName orig e'.name = some sp' →
            get_storage_profile_detail
                (applyStoragePut cur i (update_storage_profile_tags_payload e.tags p cid)) sp'.id =
              get_storage_profile_detail orig sp'.id := by
          intro e' he' sp' hsp'
          rw [detail_applyPut_ne cur i sp'.id _ (hid_ne e' he' sp' hsp')]
          exact hagtl e' he' sp' hsp'
        simp [runStorageEntries, hcv.trans hv, storageEntryOp, hv, hw,
          ih _ fresh htl hf hag']
      · simp [runStorageEntries, hcv.trans hv, storageEntryOp, hv, hw,
          ih cur fresh htl hf hagtl]
    | createNew c =>
      by_cases hw : wr (.post c)
      · cases fresh with
        | nil =>
          simp [runStorageEntries, hcv.trans hv, storageEntryOp, hv, hw,
            ih cur [] htl (by simp) hagtl]
        | cons f fresh2 =>
          have hf' : ∀ f' ∈ fresh2, ∀ p' ∈ orig, f' ≠ p'.id :=
            fun f' hf' => hf f' (by simp [hf'])
          have hag' : ∀ e' ∈ rest, ∀ sp',
              lookupStorageByName orig e'.name = some sp' →
              get_storage_profile_detail (cur ++ [profileOfCreate f c]) sp'.id =
                get_storage_profile_detail orig sp'.id := by
            intro e' he' sp' hsp'
            have hsome : (get_storage_profile_detail cur sp'.id).isSome := by
              rw [hagtl e' he' sp' hsp']
              obtain ⟨hspm, _⟩ := lookupStorageByName_mem hsp'
              exact List.find?_isSome.mpr ⟨sp', hspm, by simp⟩
            rw [detail_append_of_isSome _ _ _ hsome]
            exact hagtl e' he' sp' hsp'
          simp [runStorageEntries, hcv.trans hv, storageEntryOp, hv, hw,
            ih _ fresh2 htl hf' hag']
      · simp [runStorageEntries, hcv.trans hv, storageEntryOp, hv, hw,
          ih cur fresh htl hf hagtl]

/-- With every write accepted, the state the execute loop leaves is the batch
application of the ops it issued. -/
theorem runStorageEntries_final_exec (orig : List StorageProfile)
    (regions : List Region) (computes : List Resource) :
    ∀ (es : List StorageEntry) (cur : List StorageProfile)
      (fresh : List String),
      (runStorageEntries false (fun _ => true) orig regions computes es cur fresh).2.2 =
        applyStorageOps cur fresh
          ((runStorageEntries false (fun _ => true) orig regions computes es cur fresh).1) := by
  intro es
  induction es with
  | nil => intro cur fresh; simp [runStorageEntries, applyStorageOps]
  | cons e rest ih =>
    intro cur fresh
    cases hv : storageEntryVerdict orig cur regions computes e with
    | detailFailed => simp [runStorageEntries, hv, ih]
    | converged => simp [runStorageEntries, hv, ih]
    | skippedNoRegion => simp [runStorageEntries, hv, ih]
    | skippedNotCreatable => simp [runStorageEntries, hv, ih]
    | update i p cid =>
      simp [runStorageEntries, hv, ih, applyStorageOps_put]
    | createNew c =>
      cases fresh with
      | nil => simp [runStorageEntries, hv, ih, applyStorageOps]
      | cons f fresh2 => simp [runStorageEntries, hv, ih, applyStorageOps]

theorem applyPutsRes_name_keep (ops : List StorageOp) (N : Option String) :
    ∀ p : StorageProfile, p.name = N →
      (∀ i pl, StorageOp.put i pl ∈ ops → i = p.id → pl.name = N) →
      (applyPutsRes ops p).name = N := by
  induction ops with
  | nil => intro p h _; exact h
  | cons op rest ih =>
    intro p h hall
    cases op with
    | put i pl =>
      show (applyPutsRes rest (if p.id = i then putDocument p pl else p)).name = N
      by_cases hc : p.id = i
      · rw [if_pos hc]
        exact ih _ (hall i pl (by simp) hc.symm)
          (fun i' pl' hm hid => hall i' pl' (by simp [hm])
            (by simpa [putDocument] using hid))
      · rw [if_neg hc]
        exact ih p h (fun i' pl' hm => hall i' pl' (by simp [hm]))
    | post c =>
      show (applyPutsRes rest p).name = N
      exact ih p h (fun i' pl' hm => hall i' pl' (by simp [hm]))

theorem of_mem_zipWith {α β γ : Type} (f : α → β → γ) :
    ∀ (l1 : List α) (l2 : List β) (c : γ), c ∈ List.zipWith f l1 l2 →
      ∃ a ∈ l1, ∃ b ∈ l2, c = f a b := by
  intro l1
  induction l1 with
  | nil => intro l2 c h; simp at h
  | cons a l1 ih =>
    intro l2 c h
    cases l2 with
    | nil => simp at h
    | cons b l2 =>
      rw [List.zipWith_cons_cons] at h
      rcases List.mem_cons.mp h with h1 | h2
      · exact ⟨a, by simp, b, by simp, h1⟩
      · obtain ⟨a', ha', b', hb', hc⟩ := ih l2 c h2
        exact ⟨a', by simp [ha'], b', by simp [hb'], hc⟩

/-- With a duplicate-free fresh id supply, a created document is found under
its id among the created documents. -/
theorem created_detail (posts : List StorageCreatePayload) :
    ∀ fresh : List String, fresh.Nodup →
      ∀ pc ∈ List.zipWith profileOfCreate fresh posts,
        get_storage_profile_detail (List.zipWith profileOfCreate fresh posts)
          pc.id = some pc := by
  induction posts with
  | nil => intro fresh _ pc h; simp at h
  | cons c posts ih =>
    intro fresh hfr pc h
    cases fresh with
    | nil => simp at h
    | cons f fresh2 =>
      rw [List.zipWith_cons_cons] at h ⊢
      have hfr' := List.nodup_cons.mp hfr
      rcases List.mem_cons.mp h with h1 | h2
      · subst h1
        unfold get_storage_profile_detail
        rw [List.find?_cons_of_pos _ (by simp)]
      · have hid : pc.id ∈ fresh2 := by
          obtain ⟨f', hf', c', _, hpc⟩ := of_mem_zipWith profileOfCreate fresh2 posts pc h2
          rw [hpc, profileOfCreate_id]
          exact hf'
        unfold get_storage_profile_detail
        rw [List.find?_cons_of_neg _ (by
          simp [profileOfCreate_id]
          intro hc
          exact hfr'.1 (hc ▸ hid))]
        exact ih fresh2 hfr'.2 pc h2

theorem storageVerdict_create_inv {orig cur : List StorageProfile}
    {regions : List Region} {computes : List Resource} {e : StorageEntry}
    {c : StorageCreatePayload}
    (h : storageEntryVerdict orig cur regions computes e = .createNew c) :
    lookupStorageByName orig e.name = none ∧ e.create = true ∧
      ∃ rid, e.region.bind (regionIdLookup regions) = some rid ∧ rid ≠ "" ∧
        c = create_storage_profile_payload e.name
          (e.description.getD (e.name ++ " storage profile")) rid e.tags
          e.provisioningType e.defaultItem (storageComputeId computes e) := by
  unfold storageEntryVerdict at h
  cases hlk : lookupStorageByName orig e.name with
  | some ps =>
    rw [hlk] at h
    cases hd : get_storage_profile_detail cur ps.id with
    | none => simp [hd] at h
    | some q =>
      simp only [hd] at h
      by_cases hm : (tagSetEq q.tags e.tags &&
          (!truthyS (storageComputeId computes e) ||
            decide (q.computeHostId = storageComputeId computes e))) = true
      · simp [hm] at h
      · rw [if_neg hm] at h; cases h
  | none =>
    rw [hlk] at h
    by_cases hc : e.create
    · cases hr : e.region.bind (regionIdLookup regions) with
      | none => simp [hc, hr] at h
      | some rid =>
        by_cases hrid : rid = ""
        · simp [hc, hr, hrid] at h
        · simp only [hc, hr, if_true, hrid, if_neg hrid] at h
          cases h
          exact ⟨rfl, hc, rid, rfl, hrid, rfl⟩
    · simp [hc] at h

theorem storageOp_put_inv {orig cur : List StorageProfile}
    {regions : List Region} {computes : List Resource} {e : StorageEntry}
    {i : String} {pl : StoragePutPayload}
    (h : storageEntryOp orig cur regions computes e = some (.put i pl)) :
    ∃ p cid, storageEntryVerdict orig cur regions computes e = .update i p cid ∧
      pl = update_storage_profile_tags_payload e.tags p cid := by
  unfold storageEntryOp at h
  cases hv : storageEntryVerdict orig cur regions computes e with
  | update pid ex cid =>
    rw [hv] at h
    simp at h
    obtain ⟨h1, h2⟩ := h
    exact ⟨ex, cid, by simp [hv, h1], h2.symm⟩
  | detailFailed => rw [hv] at h; simp at h
  | converged => rw [hv] at h; simp at h
  | createNew c => rw [hv] at h; simp at h
  | skippedNoRegion => rw [hv] at h; simp at h
  | skippedNotCreatable => rw [hv] at h; simp at h

theorem storageOp_post_inv {orig cur : List StorageProfile}
    {regions : List Region} {computes : List Resource} {e : StorageEntry}
    {c : StorageCreatePayload}
    (h : storageEntryOp orig cur regions computes e = some (.post c)) :
    storageEntryVerdict orig cur regions computes e = .createNew c := by
  unfold storageEntryOp at h
  cases hv : storageEntryVerdict orig cur regions computes e with
  | createNew c2 =>
    rw [hv] at h
    simp at h
    simp [hv, h]
  | detailFailed => rw [hv] at h; simp at h
  | converged => rw [hv] at h; simp at h
  | update pid ex cid => rw [hv] at h; simp at h
  | skippedNoRegion => rw [hv] at h; simp at h
  | skippedNotCreatable => rw [hv] at h; simp at h

theorem tags_map_eta (l : List Tag) :
    l.map (fun t => (⟨t.key, t.value⟩ : Tag)) = l := by
  have h : (fun t : Tag => (⟨t.key, t.value⟩ : Tag)) = id := rfl
  rw [h, List.map_id]

theorem postsOf_mem {c : StorageCreatePayload} {ops : List StorageOp} :
    c ∈ postsOf ops ↔ StorageOp.post c ∈ ops := by
  unfold postsOf
  rw [List.mem_filterMap]
  constructor
  · rintro ⟨op, hop, hc⟩
    cases op with
    | put i pl => simp at hc
    | post c2 => simp at hc; rw [← hc]; exact hop
  · intro h
    exact ⟨.post c, h, rfl⟩

theorem created_contains (fresh : List String)
    (posts : List StorageCreatePayload) (hlen : posts.length ≤ fresh.length) :
    ∀ c ∈ posts, ∃ f ∈ fresh,
      profileOfCreate f c ∈ List.zipWith profileOfCreate fresh posts := by
  induction posts generalizing fresh with
  | nil => intro c h; simp at h
  | cons c0 posts ih =>
    intro c hc
    cases fresh with
    | nil => simp at hlen
    | cons f fresh2 =>
      rw [List.zipWith_cons_cons]
      rcases List.mem_cons.mp hc with h1 | h2
      · exact ⟨f, by simp, by simp [h1]⟩
      · obtain ⟨f', hf', hmem⟩ := ih fresh2 (by simpa using hlen) c h2
        exact ⟨f', by simp [hf'], by simp [hmem]⟩

theorem storagePut_origin {orig : List StorageProfile} {regions : List Region}
    {computes : List Resource} {es : List StorageEntry} {i : String}
    {pl : StoragePutPayload}
    (hi : (orig.map StorageProfile.id).Nodup)
    (h : StorageOp.put i pl ∈
      es.filterMap (storageEntryOp orig orig regions computes)) :
    ∃ e' ∈ es, ∃ ps, lookupStorageByName orig e'.name = some ps ∧ i = ps.id ∧
      pl = update_storage_profile_tags_payload e'.tags ps
        (storageComputeId computes e') := by
  obtain ⟨e', he', hop⟩ := List.mem_filterMap.mp h
  obtain ⟨p, cid, hv, hpl⟩ := storageOp_put_inv hop
  obtain ⟨ps, hps, hips, hdet, hcid, _⟩ := storageVerdict_update_inv hv
  obtain ⟨hpm, hpi⟩ := detail_mem hdet
  have hpsm := (lookupStorageByName_mem hps).1
  have hpps : p = ps := List.inj_on_of_nodup_map hi hpm hpsm hpi
  exact ⟨e', he', ps, hps, hips, by rw [hpl, hpps, hcid]⟩

theorem storagePost_origin {orig : List StorageProfile} {regions : List Region}
    {computes : List Resource} {es : List StorageEntry}
    {c : StorageCreatePayload}
    (h : StorageOp.post c ∈
      es.filterMap (storageEntryOp orig orig regions computes)) :
    ∃ e' ∈ es,
      storageEntryVerdict orig orig regions computes e' = .createNew c := by
  obtain ⟨e', he', hop⟩ := List.mem_filterMap.mp h
  exact ⟨e', he', storageOp_post_inv hop⟩

theorem create_payload_name (n d r : String) (t : List Tag) (pt : String)
    (di : Bool) (ch : Option String) :
    (create_storage_profile_payload n d r t pt di ch).name = n := rfl

theorem create_payload_tags (n d r : String) (t : List Tag) (pt : String)
    (di : Bool) (ch : Option String) :
    (create_storage_profile_payload n d r t pt di ch).tags =
      t.map (fun t => ⟨t.key, t.value⟩) := rfl

theorem create_payload_computeHostId (n d r : String) (t : List Tag)
    (pt : String) (di : Bool) (ch : Option String) :
    (create_storage_profile_payload n d r t pt di ch).computeHostId =
      (if truthyS ch then ch else none) := rfl

theorem update_payload_name (t : List Tag) (ex : StorageProfile)
    (ch : Option String) :
    (update_storage_profile_tags_payload t ex ch).name = ex.name := rfl

theorem update_payload_tags (t : List Tag) (ex : StorageProfile)
    (ch : Option String) :
    (update_storage_profile_tags_payload t ex ch).tags =
      t.map (fun t => ⟨t.key, t.value⟩) := rfl

theorem update_payload_computeHostId (t : List Tag) (ex : StorageProfile)
    (ch : Option String) :
    (update_storage_profile_tags_payload t ex ch).computeHostId =
      (if truthyS ch then ch
       else if truthyS ex.computeHostId then ex.computeHostId else none) := rfl

/-- Core idempotence of the storage planner: applying the writes a run
issues (with every write accepted) and deciding the same entries again
produces no write, provided configured names are distinct, backend profile
ids are distinct, and the fresh id supply is duplicate-free, disjoint from
the backend ids, and large enough. -/
theorem storage_second_run_empty (orig : List StorageProfile)
    (regions : List Region) (computes : List Resource) (fresh : List String)
    (es : List StorageEntry)
    (hn : (es.map StorageEntry.name).Nodup)
    (hi : (orig.map StorageProfile.id).Nodup)
    (hfr : fresh.Nodup)
    (hdisj : ∀ f ∈ fresh, ∀ p ∈ orig, f ≠ p.id)
    (hlen : (postsOf (es.filterMap
      (storageEntryOp orig orig regions computes))).length ≤ fresh.length) :
    es.filterMap (storageEntryOp
      (applyStorageOps orig fresh
        (es.filterMap (storageEntryOp orig orig regions computes)))
      (applyStorageOps orig fresh
        (es.filterMap (storageEntryOp orig orig regions computes)))
      regions computes) = [] := by
  set ops := es.filterMap (storageEntryOp orig orig regions computes) with hops
  set posts := postsOf ops with hposts
  set created := List.zipWith profileOfCreate fresh posts with hcreated
  have hput_not_fresh : ∀ i pl, StorageOp.put i pl ∈ ops → i ∉ fresh := by
    intro i pl hm hmem
    obtain ⟨e', _, ps, hps, hips, _⟩ := storagePut_origin hi hm
    exact hdisj i hmem ps (lookupStorageByName_mem hps).1 hips
  have hstruct : applyStorageOps orig fresh ops =
      orig.map (applyPutsRes ops) ++ created :=
    applyStorageOps_structure ops orig fresh hput_not_fresh
  rw [hstruct]
  set F := applyPutsRes ops with hF
  have hFid : ∀ p, (F p).id = p.id := applyPutsRes_id ops
  have hFname : ∀ p, p ∈ orig → (F p).name = p.name := by
    intro p hp
    apply applyPutsRes_name_keep ops p.name p rfl
    intro i pl hm hid
    obtain ⟨e', _, ps, hps, hips, hpl⟩ := storagePut_origin hi hm
    have hpsm := (lookupStorageByName_mem hps).1
    have hpsp : ps = p :=
      List.inj_on_of_nodup_map hi hpsm hp (by rw [← hips, hid])
    rw [hpl]
    show ps.name = p.name
    rw [hpsp]
  have hlook : ∀ n, lookupStorageByName (orig.map F ++ created) n =
      (lookupStorageByName created n).or ((lookupStorageByName orig n).map F) := by
    intro n
    rw [lookupStorageByName_append, lookupStorageByName_map orig F hFname]
  have hinjE : ∀ a ∈ es, ∀ b ∈ es, a.name = b.name → a = b :=
    fun a ha b hb hab => List.inj_on_of_nodup_map hn ha hb hab
  have hcreatedOrigin : ∀ pc ∈ created, ∃ f ∈ fresh, ∃ c ∈ posts,
      pc = profileOfCreate f c :=
    fun pc h => of_mem_zipWith profileOfCreate fresh posts pc h
  have hcreatedName : ∀ e ∈ es,
      (∀ c, storageEntryVerdict orig orig regions computes e ≠ .createNew c) →
      lookupStorageByName created e.name = none := by
    intro e he hnc
    unfold lookupStorageByName
    rw [List.find?_eq_none]
    intro pc hpc
    rw [List.mem_reverse] at hpc
    simp only [decide_eq_true_eq]
    intro hname
    obtain ⟨f, _, c, hcposts, hpceq⟩ := hcreatedOrigin pc hpc
    obtain ⟨e'', he'', hv''⟩ := storagePost_origin (postsOf_mem.mp hcposts)
    obtain ⟨_, _, rid, _, _, hceq⟩ := storageVerdict_create_inv hv''
    have hcname : c.name = e''.name := by rw [hceq, create_payload_name]
    have hpcname : pc.name = some c.name := by rw [hpceq]; rfl
    have hce : c.name = e.name := by
      have := hpcname.symm.trans hname
      injection this
    have heeq : e'' = e := hinjE e'' he'' e he (hcname.symm.trans hce)
    exact hnc c (heeq ▸ hv'')
  apply List.filterMap_eq_nil_iff.mpr
  intro e he
  cases hlk : lookupStorageByName orig e.name with
  | some ps =>
    have hnc : ∀ c,
        storageEntryVerdict orig orig regions computes e ≠ .createNew c := by
      intro c hv
      obtain ⟨hnone, _, _⟩ := storageVerdict_create_inv hv
      rw [hlk] at hnone
      exact Option.noConfusion hnone
    have hCnone := hcreatedName e he hnc
    have hlookup2 : lookupStorageByName (orig.map F ++ created) e.name =
        some (F ps) := by
      rw [hlook, hCnone, hlk]
      rfl
    obtain ⟨hpsm, hpsn⟩ := lookupStorageByName_mem hlk
    have hdet_orig : get_storage_profile_detail orig ps.id = some ps :=
      detail_of_mem orig hi ps hpsm
    have hdet2 : get_storage_profile_detail (orig.map F ++ created) ps.id =
        some (F ps) := by
      rw [detail_append, detail_map orig F (fun p _ => hFid p), hdet_orig]
      rfl
    by_cases hconv : (tagSetEq ps.tags e.tags &&
        (!truthyS (storageComputeId computes e) ||
          decide (ps.computeHostId = storageComputeId computes e))) = true
    · have hve : storageEntryVerdict orig orig regions computes e =
          .converged := by
        unfold storageEntryVerdict
        rw [hlk]
        simp [hdet_orig, hconv]
      have hnohit : ∀ i pl, StorageOp.put i pl ∈ ops → i ≠ ps.id := by
        intro i pl hm hc
        obtain ⟨e', he', hop'⟩ := List.mem_filterMap.mp hm
        obtain ⟨p', cid', hv', _⟩ := storageOp_put_inv hop'
        obtain ⟨ps', hps', hips', _, _, _⟩ := storageVerdict_update_inv hv'
        have hps'm := (lookupStorageByName_mem hps').1
        have hps'eq : ps' = ps :=
          List.inj_on_of_nodup_map hi hps'm hpsm (by rw [← hips', hc])
        have hname' : e'.name = e.name := by
          have h1 := (lookupStorageByName_mem hps').2
          rw [hps'eq, hpsn] at h1
          injection h1 with h1'
          exact h1'.symm
        have heeq : e' = e := hinjE e' he' e he hname'
        rw [heeq, hve] at hv'
        exact StorageVerdict.noConfusion hv'
      have hFps : F ps = ps := applyPutsRes_no_hit ops ps hnohit
      have hdet2' : get_storage_profile_detail (orig.map F ++ created) ps.id =
          some ps := by
        rw [hdet2, hFps]
      have hv2 : storageEntryVerdict (orig.map F ++ created)
          (orig.map F ++ created) regions computes e = .converged := by
        unfold storageEntryVerdict
        rw [hlookup2, hFps]
        simp [hdet2', hconv]
      unfold storageEntryOp
      rw [hv2]
    · have hve : storageEntryVerdict orig orig regions computes e =
          .update ps.id ps (storageComputeId computes e) := by
        unfold storageEntryVerdict
        rw [hlk]
        simp [hdet_orig, hconv]
      set pl0 := update_storage_profile_tags_payload e.tags ps
        (storageComputeId computes e) with hpl0
      have hopmem : StorageOp.put ps.id pl0 ∈ ops := by
        rw [hops]
        refine List.mem_filterMap.mpr ⟨e, he, ?_⟩
        unfold storageEntryOp
        rw [hve]
      have hall : ∀ i pl, StorageOp.put i pl ∈ ops → i = ps.id → pl = pl0 := by
        intro i pl hm hc
        obtain ⟨e', he', hop'⟩ := List.mem_filterMap.mp hm
        obtain ⟨p', cid', hv', hpl'⟩ := storageOp_put_inv hop'
        obtain ⟨ps', hps', hips', _, _, _⟩ := storageVerdict_update_inv hv'
        have hps'm := (lookupStorageByName_mem hps').1
        have hps'eq : ps' = ps :=
          List.inj_on_of_nodup_map hi hps'm hpsm (by rw [← hips', hc])
        have hname' : e'.name = e.name := by
          have h1 := (lookupStorageByName_mem hps').2
          rw [hps'eq, hpsn] at h1
          injection h1 with h1'
          exact h1'.symm
        have heeq : e' = e := hinjE e' he' e he hname'
        rw [heeq, hve] at hv'
        injection hv' with hq1 hq2 hq3
        rw [hpl', heeq, ← hq2, ← hq3]
      have hFps : F ps = putDocument ps pl0 :=
        applyPutsRes_hit ops pl0 ps hall hopmem
      have htags : (F ps).tags = e.tags := by
        rw [hFps]
        show pl0.tags = e.tags
        rw [hpl0, update_payload_tags]
        exact tags_map_eta e.tags
      have hch : (F ps).computeHostId = pl0.computeHostId := by
        rw [hFps]; rfl
      have hcond2 : (tagSetEq (F ps).tags e.tags &&
          (!truthyS (storageComputeId computes e) ||
            decide ((F ps).computeHostId = storageComputeId computes e))) = true := by
        rw [htags, tagSetEq_refl]
        cases htr : truthyS (storageComputeId computes e) with
        | false => simp
        | true =>
          have hpc : pl0.computeHostId = storageComputeId computes e := by
            rw [hpl0, update_payload_computeHostId, if_pos htr]
          simp [hch, hpc]
      have hdet2' : get_storage_profile_detail (orig.map F ++ created)
          (F ps).id = some (F ps) := by
        rw [hFid ps]
        exact hdet2
      have hv2 : storageEntryVerdict (orig.map F ++ created)
          (orig.map F ++ created) regions computes e = .converged := by
        unfold storageEntryVerdict
        rw [hlookup2]
        simp [hdet2', hcond2]
      unfold storageEntryOp
      rw [hv2]
  | none =>
    have hlookF : (lookupStorageByName orig e.name).map F = none := by
      rw [hlk]; rfl
    by_cases hc : e.create = true
    · cases hr : e.region.bind (regionIdLookup regions) with
      | none =>
        have hnc : ∀ c,
            storageEntryVerdict orig orig regions computes e ≠ .createNew c := by
          intro c hv
          obtain ⟨_, _, rid, hrid, _, _⟩ := storageVerdict_create_inv hv
          rw [hr] at hrid
          exact Option.noConfusion hrid
        have hCnone := hcreatedName e he hnc
        have hv2 : storageEntryVerdict (orig.map F ++ created)
            (orig.map F ++ created) regions computes e = .skippedNoRegion := by
          unfold storageEntryVerdict
          rw [hlook, hCnone, hlookF]
          simp [hc, hr]
        unfold storageEntryOp
        rw [hv2]
      | some rid =>
        by_cases hrid : rid = ""
        · have hnc : ∀ c,
              storageEntryVerdict orig orig regions computes e ≠ .createNew c := by
            intro c hv
            obtain ⟨_, _, rid', hrid', hne', _⟩ := storageVerdict_create_inv hv
            rw [hr] at hrid'
            have : rid = rid' := by injection hrid'
            exact hne' (by rw [← this, hrid])
          have hCnone := hcreatedName e he hnc
          have hv2 : storageEntryVerdict (orig.map F ++ created)
              (orig.map F ++ created) regions computes e = .skippedNoRegion := by
            unfold storageEntryVerdict
            rw [hlook, hCnone, hlookF]
            simp [hc, hr, hrid]
          unfold storageEntryOp
          rw [hv2]
        · set c := create_storage_profile_payload e.name
            (e.description.getD (e.name ++ " storage profile")) rid e.tags
            e.provisioningType e.defaultItem (storageComputeId computes e)
            with hc_def
          have hve : storageEntryVerdict orig orig regions computes e =
              .createNew c := by
            unfold storageEntryVerdict
            rw [hlk]
            simp [hc, hr, hrid, hc_def]
          have hopmem : StorageOp.post c ∈ ops := by
            rw [hops]
            refine List.mem_filterMap.mpr ⟨e, he, ?_⟩
            unfold storageEntryOp
            rw [hve]
          have hcposts : c ∈ posts := postsOf_mem.mpr hopmem
          have hcname : c.name = e.name := by rw [hc_def, create_payload_name]
          have hlkC : (created.reverse.find?
              (fun p => decide (p.name = some e.name))).isSome := by
            apply List.find?_isSome.mpr
            obtain ⟨f, _, hmem⟩ := created_contains fresh posts hlen c hcposts
            refine ⟨profileOfCreate f c, List.mem_reverse.mpr hmem, ?_⟩
            simp [profileOfCreate, hcname]
          obtain ⟨pc, hpc⟩ := Option.isSome_iff_exists.mp hlkC
          have hpc' : lookupStorageByName created e.name = some pc := hpc
          obtain ⟨hpcmem, hpcname⟩ := lookupStorageByName_mem hpc'
          obtain ⟨f', hf', c', hc'posts, hpceq⟩ := hcreatedOrigin pc hpcmem
          obtain ⟨e'', he'', hv''⟩ := storagePost_origin (postsOf_mem.mp hc'posts)
          obtain ⟨_, _, rid'', _, _, hceq''⟩ := storageVerdict_create_inv hv''
          have hc'name : c'.name = e''.name := by
            rw [hceq'', create_payload_name]
          have hpcname' : pc.name = some c'.name := by rw [hpceq]; rfl
          have hcename : c'.name = e.name := by
            have := hpcname'.symm.trans hpcname
            injection this
          have heeq : e'' = e := hinjE e'' he'' e he (hc'name.symm.trans hcename)
          have hc'c : c' = c := by
            rw [heeq, hve] at hv''
            injection hv'' with h
            exact h.symm
          have hpcid : pc.id = f' := by rw [hpceq]; rfl
          have hdetF : get_storage_profile_detail (orig.map F) pc.id = none := by
            apply detail_none_of
            intro q hq
            obtain ⟨p, hp, hq'⟩ := List.mem_map.mp hq
            rw [← hq', hFid p, hpcid]
            intro hcon
            exact hdisj f' hf' p hp hcon.symm
          have hdetC : get_storage_profile_detail created pc.id = some pc :=
            created_detail posts fresh hfr pc hpcmem
          have hdet2 : get_storage_profile_detail (orig.map F ++ created)
              pc.id = some pc := by
            rw [detail_append, hdetF, hdetC]
            rfl
          have htags : pc.tags = e.tags := by
            rw [hpceq, hc'c]
            show c.tags = e.tags
            rw [hc_def, create_payload_tags]
            exact tags_map_eta e.tags
          have hch : pc.computeHostId =
              (if truthyS (storageComputeId computes e) then
                storageComputeId computes e else none) := by
            rw [hpceq, hc'c]
            show c.computeHostId = _
            rw [hc_def, create_payload_computeHostId]
          have hcond2 : (tagSetEq pc.tags e.tags &&
              (!truthyS (storageComputeId computes e) ||
                decide (pc.computeHostId = storageComputeId computes e))) = true := by
            rw [htags, tagSetEq_refl]
            cases htr : truthyS (storageComputeId computes e) with
            | false => simp
            | true => simp [hch, htr]
          have hv2 : storageEntryVerdict (orig.map F ++ created)
              (orig.map F ++ created) regions computes e = .converged := by
            unfold storageEntryVerdict
            rw [hlook, hpc']
            simp [hdet2, hcond2]
          unfold storageEntryOp
          rw [hv2]
    · have hnc : ∀ c,
          storageEntryVerdict orig orig regions computes e ≠ .createNew c := by
        intro c hv
        obtain ⟨_, hct, _⟩ := storageVerdict_create_inv hv
        exact hc hct
      have hCnone := hcreatedName e he hnc
      have hv2 : storageEntryVerdict (orig.map F ++ created)
          (orig.map F ++ created) regions computes e = .skippedNotCreatable := by
        unfold storageEntryVerdict
        rw [hlook, hCnone, hlookF]
        simp [hc]
      unfold storageEntryOp
      rw [hv2]

/-! ## Tag comparison versus (key, value) pair sets (C3) -/

theorem colon_list_inj :
    ∀ (l1 r1 l2 r2 : List Char), ':' ∉ l1 → ':' ∉ l2 →
      l1 ++ ':' :: r1 = l2 ++ ':' :: r2 → l1 = l2 ∧ r1 = r2 := by
  intro l1
  induction l1 with
  | nil =>
    intro r1 l2 r2 _ h2 h
    cases l2 with
    | nil =>
      simp only [List.nil_append] at h
      injection h with _ hr
      exact ⟨rfl, hr⟩
    | cons c l2 =>
      simp only [List.nil_append, List.cons_append] at h
      injection h with hc _
      exact absurd (hc ▸ List.mem_cons_self c l2) h2
  | cons a l1 ih =>
    intro r1 l2 r2 h1 h2 h
    cases l2 with
    | nil =>
      simp only [List.cons_append, List.nil_append] at h
      injection h with hc _
      exact absurd (hc ▸ List.mem_cons_self a l1) h1
    | cons b l2 =>
      simp only [List.cons_append] at h
      injection h with hc hr
      obtain ⟨hl, hr2⟩ := ih r1 l2 r2
        (fun hm => h1 (List.mem_cons.mpr (Or.inr hm)))
        (fun hm => h2 (List.mem_cons.mpr (Or.inr hm))) hr
      exact ⟨by rw [hc, hl], hr2⟩

theorem tagJoin_inj (t u : Tag) (ht : ':' ∉ t.key.data) (hu : ':' ∉ u.key.data)
    (h : tagJoin t = tagJoin u) : t = u := by
  have hd : t.key.data ++ ':' :: t.value.data =
      u.key.data ++ ':' :: u.value.data := by
    have h1 : (t.key ++ ":" ++ t.value).data = (u.key ++ ":" ++ u.value).data :=
      congrArg String.data h
    simpa [String.data_append] using h1
  obtain ⟨hk, hv⟩ := colon_list_inj t.key.data t.value.data u.key.data
    u.value.data ht hu hd
  have hkey : t.key = u.key := String.ext hk
  have hval : t.value = u.value := String.ext hv
  cases t; cases u
  simp_all

theorem toFinset_map' {α β : Type} [DecidableEq α] [DecidableEq β]
    (l : List α) (f : α → β) : (l.map f).toFinset = l.toFinset.image f := by
  ext x
  simp

theorem tagPairSet_subset_of_strSet (a b : List Tag)
    (ha : ∀ t ∈ a, ':' ∉ t.key.data) (hb : ∀ t ∈ b, ':' ∉ t.key.data)
    (hset : tagStrSet a = tagStrSet b) :
    ∀ p ∈ tagPairSet a, p ∈ tagPairSet b := by
  intro p hp
  rw [tagPairSet, List.mem_toFinset] at hp
  obtain ⟨t, ht, hteq⟩ := List.mem_map.mp hp
  have hmem : tagJoin t ∈ tagStrSet b := by
    rw [← hset, tagStrSet, List.mem_toFinset]
    exact List.mem_map_of_mem tagJoin ht
  rw [tagStrSet, List.mem_toFinset] at hmem
  obtain ⟨u, hu, hueq⟩ := List.mem_map.mp hmem
  have htu : u = t := tagJoin_inj u t (hb u hu) (ha t ht) hueq
  rw [tagPairSet, List.mem_toFinset]
  exact List.mem_map.mpr ⟨u, hu, by rw [htu, hteq]⟩

theorem tagStrSet_eq_image (l : List Tag) :
    tagStrSet l = (tagPairSet l).image (fun p => p.1 ++ ":" ++ p.2) := by
  rw [tagStrSet, tagPairSet]
  have h : l.map tagJoin =
      (l.map (fun t => (t.key, t.value))).map (fun p => p.1 ++ ":" ++ p.2) := by
    rw [List.map_map]
    rfl
  rw [h, toFinset_map']

/-- C3 (counterexample): the tag diff of `cmd_process_tags` compares sets of
joined `"key:value"` strings, so the lists `[{key: "a:b", value: "c"}]` and
`[{key: "a", value: "b:c"}]` denote different (key, value) pair sets yet are
judged equal — refuting that the diff judges lists equal exactly when they
denote the same pair set. -/
theorem c3_counterexample :
    tagSetEq [⟨"a:b", "c"⟩] [⟨"a", "b:c"⟩] = true ∧
      tagPairSet [⟨"a:b", "c"⟩] ≠ tagPairSet [⟨"a", "b:c"⟩] := by
  constructor
  · decide
  · decide

/-- C3 (amended): the diff judges two tag lists equal exactly when their sets
of joined `"key:value"` strings coincide; order is irrelevant and duplicates
collapse.  When no key contains `':'` this coincides with equality of the
unordered sets of (key, value) pairs; with a `':'` inside a key, distinct
pair sets can be judged equal. -/
theorem c3_tag_diff_set_equality (a b : List Tag)
    (ha : ∀ t ∈ a, ':' ∉ t.key.data) (hb : ∀ t ∈ b, ':' ∉ t.key.data) :
    tagSetEq a b = true ↔ tagPairSet a = tagPairSet b := by
  constructor
  · intro h
    have hset : tagStrSet a = tagStrSet b := of_decide_eq_true h
    exact Finset.Subset.antisymm
      (fun p hp => tagPairSet_subset_of_strSet a b ha hb hset p hp)
      (fun p hp => tagPairSet_subset_of_strSet b a hb ha hset.symm p hp)
  · intro h
    rw [tagSetEq, decide_eq_true_eq, tagStrSet_eq_image, tagStrSet_eq_image, h]

/-- C3 (witness): on colon-free keys, the lists `[{a,1},{b,2}]` and
`[{b,2},{a,1},{a,1}]` — reordered with a duplicate — denote the same pair
set and the diff judges them equal. -/
theorem c3_tag_diff_set_equality_witness :
    (∀ t ∈ ([⟨"a", "1"⟩, ⟨"b", "2"⟩] : List Tag), ':' ∉ t.key.data) ∧
      tagSetEq [⟨"a", "1"⟩, ⟨"b", "2"⟩] [⟨"b", "2"⟩, ⟨"a", "1"⟩, ⟨"a", "1"⟩] =
        true :=
  ⟨by decide,
   (c3_tag_diff_set_equality [⟨"a", "1"⟩, ⟨"b", "2"⟩]
      [⟨"b", "2"⟩, ⟨"a", "1"⟩, ⟨"a", "1"⟩] (by decide) (by decide)).mpr
     (by decide)⟩

/-- C4: full-document replace integrity.  For a storage-profile tag update
where the existing profile has `diskProperties` and a truthy `computeHostId`
and the desired spec carries no compute binding, the outgoing PUT document of
`AriaClient.update_storage_profile_tags` keeps the original `diskProperties`,
the original `diskTargetProperties`, and the original `computeHostId`
unchanged, along with the existing name, description, defaultItem flag,
encryption flag and region. -/
theorem c4_full_document_replace (tags : List Tag) (existing : StorageProfile)
    (d : DiskProperties) (c : String)
    (hd : existing.diskProperties = some d)
    (hc : existing.computeHostId = some c) (hcne : c ≠ "")
    (hr : existing.regionId ≠ "") :
    (update_storage_profile_tags_payload tags existing none).diskProperties =
        some d ∧
      (update_storage_profile_tags_payload tags existing none).computeHostId =
        some c ∧
      (update_storage_profile_tags_payload tags existing none).diskTargetProperties =
        existing.diskTargetProperties ∧
      (update_storage_profile_tags_payload tags existing none).name =
        existing.name ∧
      (update_storage_profile_tags_payload tags existing none).description =
        existing.description ∧
      (update_storage_profile_tags_payload tags existing none).defaultItem =
        existing.defaultItem ∧
      (update_storage_profile_tags_payload tags existing none).supportsEncryption =
        existing.supportsEncryption ∧
      (update_storage_profile_tags_payload tags existing none).regionId =
        existing.regionId := by
  refine ⟨?_, ?_, rfl, rfl, rfl, rfl, rfl, ?_⟩
  · show existing.diskProperties = some d
    exact hd
  · rw [update_payload_computeHostId]
    have ht : truthyS existing.computeHostId = true := by
      rw [hc]
      simpa [truthyS] using hcne
    simp [truthyS, ht, hc, hcne]
  · show (if existing.regionId ≠ "" then existing.regionId
      else extractRegionId existing.linksRegionHref) = existing.regionId
    rw [if_pos hr]

/-- C4 (witness): the guarantee evaluated on a concrete profile holding disk
properties, disk target properties and a compute binding. -/
theorem c4_full_document_replace_witness :
    (update_storage_profile_tags_payload [⟨"tier", "gold"⟩]
        ⟨"id-1", some "prof", "desc", true, false, [⟨"old", "t"⟩], "region-9",
          "", some ⟨some "thin", [("shares", "high")]⟩, some "dtp-doc",
          some "cluster-7"⟩ none).diskProperties =
      some ⟨some "thin", [("shares", "high")]⟩ ∧
    (update_storage_profile_tags_payload [⟨"tier", "gold"⟩]
        ⟨"id-1", some "prof", "desc", true, false, [⟨"old", "t"⟩], "region-9",
          "", some ⟨some "thin", [("shares", "high")]⟩, some "dtp-doc",
          some "cluster-7"⟩ none).computeHostId = some "cluster-7" := by
  have h := c4_full_document_replace [⟨"tier", "gold"⟩]
    ⟨"id-1", some "prof", "desc", true, false, [⟨"old", "t"⟩], "region-9",
      "", some ⟨some "thin", [("shares", "high")]⟩, some "dtp-doc",
      some "cluster-7"⟩ ⟨some "thin", [("shares", "high")]⟩ "cluster-7"
    rfl rfl (by decide) (by decide)
  exact ⟨h.1, h.2.1⟩

/-! ## Pagination (C6) -/

/-- C6 (counterexample): a cloud-zone listing backed by two chained 200
pages.  `get_cloud_zones` returns only the first page's content: it misses
`"zone-p2"` even though `_get_paginated` on the same pages would return it,
so not every backend listing the tool uses follows next-page links. -/
theorem c6_counterexample :
    get_cloud_zones_listing
        [⟨true, ["zone-p1"], true⟩, ⟨true, ["zone-p2"], false⟩] =
      ["zone-p1"] ∧
    get_paginated [⟨true, ["zone-p1"], true⟩, ⟨true, ["zone-p2"], false⟩] =
      ["zone-p1", "zone-p2"] ∧
    get_cloud_zones_listing
        [⟨true, ["zone-p1"], true⟩, ⟨true, ["zone-p2"], false⟩] ≠
      get_paginated [⟨true, ["zone-p1"], true⟩, ⟨true, ["zone-p2"], false⟩] := by
  refine ⟨rfl, rfl, ?_⟩
  decide

/-- C6 (amended): the listings routed through `_get_paginated` (regions,
fabric images, flavor profiles, image profiles) follow next-page links to
completion — on a well-formed chain of 200 pages the result is the
concatenation of every page's content — while `get_cloud_zones`,
`get_network_profiles`, `get_storage_profiles` and `get_fabric_computes`
issue a single GET and return only the first page's content. -/
theorem c6_pagination_completeness :
    (∀ pages : List Page, chainOk pages = true →
      get_paginated pages = (pages.map Page.content).flatten) ∧
    (∀ (p : Page) (rest : List Page),
      get_cloud_zones_listing (p :: rest) =
        if p.ok then p.content else []) := by
  constructor
  · intro pages
    induction pages with
    | nil => intro _; rfl
    | cons p rest ih =>
      intro h
      cases rest with
      | nil =>
        have hok : p.ok = true := by simpa [chainOk] using h
        cases hn : p.hasNext <;> simp [get_paginated, hok, hn]
      | cons q rest2 =>
        have h3 : p.ok = true ∧ p.hasNext = true ∧ chainOk (q :: rest2) = true := by
          simpa [chainOk, Bool.and_assoc, Bool.and_eq_true] using h
        have hstep : get_paginated (p :: q :: rest2) =
            p.content ++ get_paginated (q :: rest2) := by
          simp [get_paginated, h3.1, h3.2.1]
        rw [hstep, ih h3.2.2]
        simp
  · intro p rest
    rfl

/-- C6 (witness): the pagination-completeness half applied to the concrete
two-page chain of the counterexample's shape. -/
theorem c6_pagination_completeness_witness :
    get_paginated [⟨true, ["r1"], true⟩, ⟨true, ["r2"], false⟩] =
      (([⟨true, ["r1"], true⟩, ⟨true, ["r2"], false⟩] : List Page).map
        Page.content).flatten :=
  c6_pagination_completeness.1
    [⟨true, ["r1"], true⟩, ⟨true, ["r2"], false⟩] (by decide)

/-! ## Main dispatch (C5) -/

/-- A backend whose region listing is empty, so region resolution fails. -/
def c5_state : Backend :=
  { regionsB := []
    fabricImages := []
    zones := [⟨"Z", "z-1", [⟨"k", "v"⟩]⟩]
    netProfiles := []
    computes := []
    storageProfiles := [] }

/-- A config that asks for every resource kind. -/
def c5_config : Config :=
  { regions := ["R1"]
    flavors := [⟨"small", 1, 1024⟩]
    images := [⟨"img1", [("R1", "ubuntu")]⟩]
    flavorProfileName := none
    flavorProfileDescription := none
    imageProfileName := none
    imageProfileDescription := none
    tagsSection := some
      { cloudZones := [⟨"Z", [⟨"k", "v"⟩]⟩]
        networkProfiles := []
        compute := []
        storageProfiles := [⟨"SP", [⟨"k", "v"⟩], false, none, none, none,
          "thin", false⟩] } }

/-- C5 (counterexample): with `--all`, a fatal-for-kind condition in the
flavor handler (zero resolvable regions) makes `main` return immediately
(`if result != 0: return result`), so the image, storage and tag handlers
never run even though their own fatal-for-kind conditions are absent —
refuting that the other resource kinds continue. -/
theorem c5_counterexample :
    (runFlavorsCmd c5_state c5_config).2 = 1 ∧
      processAllKinds true c5_state c5_config = [Kind.flavors] ∧
      Kind.tags ∉ processAllKinds true c5_state c5_config ∧
      ¬((c5_config.tagsSection.map (·.storageProfiles)).getD []).isEmpty ∧
      c5_config.tagsSection.isSome := by
  refine ⟨rfl, ?_, ?_, by decide, rfl⟩
  · rfl
  · decide

/-- C5 (amended): in the `--all` path, an authentication failure aborts
before any resource processing; otherwise the handlers run in the fixed
order flavors → images → storage → tags, and a fatal-for-kind condition
(nonzero handler return: zero resolvable regions, or zero definitions for
that kind) aborts that kind and every later kind — the kinds invoked are
exactly the order's prefix through the first failing handler. -/
theorem c5_abort_cascades (authOk : Bool) (st : Backend) (cfg : Config) :
    processAllKinds authOk st cfg =
      if authOk = false then []
      else kindOrder.take
        (1 + ((kindRets st cfg).takeWhile (fun r => decide (r = 0))).length) := by
  cases authOk with
  | false => rfl
  | true =>
    by_cases hf : (runFlavorsCmd st cfg).2 = 0
    · by_cases hi : (runImagesCmd st cfg).2.2 = 0
      · by_cases hs : ((cfg.tagsSection.map (·.storageProfiles)).getD []).isEmpty
        · simp [processAllKinds, kindRets, kindOrder, hf, hi, hs,
            List.takeWhile_cons]
        · simp [processAllKinds, kindRets, kindOrder, hf, hi, hs,
            List.takeWhile_cons]
      · simp [processAllKinds, kindRets, kindOrder, hf, hi,
          List.takeWhile_cons]
    · simp [processAllKinds, kindRets, kindOrder, hf, List.takeWhile_cons]

/-! ## Image planning (C7, C8) -/

/-- Specification view of one template resolution: the resolved entry when
both the region and the composite-key fabric lookup succeed truthily. -/
def resolveTemplate (resolved : List (String × String))
    (lookup : List ((String × String) × String)) (mappingName : String)
    (rt : String × String) : Option ResolvedImage :=
  let rid? := dget resolved rt.1
  if !truthyS rid? then none
  else
    let fid? := dget lookup (rid?.getD "", rt.2)
    if !truthyS fid? then none
    else some ⟨mappingName, rt.2, fid?.getD ""⟩

/-- Specification view of the warning one template resolution records. -/
def templateWarning (resolved : List (String × String))
    (lookup : List ((String × String) × String)) (mappingName : String)
    (rt : String × String) : Option ImgWarning :=
  let rid? := dget resolved rt.1
  if !truthyS rid? then some (.regionNotFound rt.1 mappingName)
  else
    let fid? := dget lookup (rid?.getD "", rt.2)
    if !truthyS fid? then some (.templateNotFound rt.2 rt.1 mappingName)
    else none

theorem planTemplates_spec (resolved : List (String × String))
    (lookup : List ((String × String) × String)) (mn : String) :
    ∀ (ts : List (String × String))
      (acc : (String → List ResolvedImage) × List ImgWarning),
      (∀ rn, (ts.foldl (planTemplateStep resolved lookup mn) acc).1 rn =
        acc.1 rn ++ ts.filterMap (fun rt =>
          if rt.1 = rn then resolveTemplate resolved lookup mn rt else none)) ∧
      (ts.foldl (planTemplateStep resolved lookup mn) acc).2 =
        acc.2 ++ ts.filterMap (templateWarning resolved lookup mn) := by
  intro ts
  induction ts with
  | nil => intro acc; exact ⟨fun rn => by simp, by simp⟩
  | cons rt rest ih =>
    intro acc
    rw [List.foldl_cons]
    by_cases hrid : truthyS (dget resolved rt.1) = true
    · by_cases hfid : truthyS (dget lookup ((dget resolved rt.1).getD "", rt.2)) = true
      · have hstep : planTemplateStep resolved lookup mn acc rt =
            (fun x => if x = rt.1 then
                acc.1 x ++ [⟨mn, rt.2, (dget lookup ((dget resolved rt.1).getD "", rt.2)).getD ""⟩]
              else acc.1 x,
             acc.2) := by
          simp [planTemplateStep, hrid, hfid]
        rw [hstep]
        obtain ⟨ihf, ihw⟩ := ih _
        refine ⟨fun rn => ?_,
          by rw [ihw]; simp [templateWarning, hrid, hfid, List.filterMap_cons]⟩
        rw [ihf rn]
        by_cases hrn : rt.1 = rn
        · subst hrn
          simp [resolveTemplate, hrid, hfid, List.filterMap_cons]
        · have : ¬(rn = rt.1) := fun hc => hrn hc.symm
          simp [hrn, this, List.filterMap_cons]
      · have hstep : planTemplateStep resolved lookup mn acc rt =
            (acc.1, acc.2 ++ [.templateNotFound rt.2 rt.1 mn]) := by
          simp [planTemplateStep, hrid, hfid]
        rw [hstep]
        obtain ⟨ihf, ihw⟩ := ih _
        refine ⟨fun rn => ?_,
          by rw [ihw]; simp [templateWarning, hrid, hfid, List.filterMap_cons]⟩
        rw [ihf rn]
        by_cases hrn : rt.1 = rn
        · subst hrn
          simp [resolveTemplate, hrid, hfid, List.filterMap_cons]
        · simp [hrn, List.filterMap_cons]
    · have hstep : planTemplateStep resolved lookup mn acc rt =
          (acc.1, acc.2 ++ [.regionNotFound rt.1 mn]) := by
        simp [planTemplateStep, hrid]
      rw [hstep]
      obtain ⟨ihf, ihw⟩ := ih _
      refine ⟨fun rn => ?_,
        by rw [ihw]; simp [templateWarning, hrid, List.filterMap_cons]⟩
      rw [ihf rn]
      by_cases hrn : rt.1 = rn
      · subst hrn
        simp [resolveTemplate, hrid, List.filterMap_cons]
      · simp [hrn, List.filterMap_cons]

theorem planImages_spec (resolved : List (String × String))
    (lookup : List ((String × String) × String)) :
    ∀ (cfg : List ImageCfg)
      (acc : (String → List ResolvedImage) × List ImgWarning),
      (∀ rn, (planImages resolved lookup cfg acc).1 rn =
        acc.1 rn ++ cfg.flatMap (fun ic => ic.templates.filterMap (fun rt =>
          if rt.1 = rn then resolveTemplate resolved lookup ic.name rt
          else none))) ∧
      (planImages resolved lookup cfg acc).2 =
        acc.2 ++ cfg.flatMap (fun ic =>
          ic.templates.filterMap (templateWarning resolved lookup ic.name)) := by
  intro cfg
  induction cfg with
  | nil => intro acc; exact ⟨fun rn => by simp [planImages], by simp [planImages]⟩
  | cons ic rest ih =>
    intro acc
    have hfold := planTemplates_spec resolved lookup ic.name ic.templates acc
    obtain ⟨ihf, ihw⟩ := ih (ic.templates.foldl
      (planTemplateStep resolved lookup ic.name) acc)
    refine ⟨fun rn => ?_, ?_⟩
    · show (planImages resolved lookup rest _).1 rn = _
      rw [ihf rn, hfold.1 rn]
      simp [List.flatMap_cons, List.append_assoc]
    · show (planImages resolved lookup rest _).2 = _
      rw [ihw, hfold.2]
      simp [List.flatMap_cons, List.append_assoc]

theorem buildFabricLookup_eq (imgs : List FabricImage) :
    buildFabricLookup imgs = imgs.filterMap (fun img =>
      let rid := extractRegionId img.regionHref
      if img.name != "" && img.id != "" && rid != "" then
        some ((rid, img.name), img.id)
      else none) := by
  unfold buildFabricLookup
  rw [foldl_dinsert_eq_append _ (fun img =>
      let rid := extractRegionId img.regionHref
      if img.name != "" && img.id != "" && rid != "" then
        some ((rid, img.name), img.id)
      else none) ?hstep imgs []]
  · simp
  case hstep =>
    intro acc x
    by_cases hc : (x.name != "" && x.id != "" &&
        extractRegionId x.regionHref != "") = true <;> simp [hc]

/-- C8: partial failure isolation in image planning.  Each region's batch is
exactly the successfully resolved entries of the desired mappings targeting
that region, in traversal order; the recorded warnings are exactly the
failed resolutions; and per `(region, template)` pair, resolution fails
exactly when a warning is recorded — so a failing entry is excluded without
affecting any other entry or any other region's batch. -/
theorem c8_image_partial_failure_isolation
    (resolved : List (String × String))
    (lookup : List ((String × String) × String)) (cfg : List ImageCfg) :
    (∀ rn, (planImages resolved lookup cfg (fun _ => [], [])).1 rn =
      cfg.flatMap (fun ic => ic.templates.filterMap (fun rt =>
        if rt.1 = rn then resolveTemplate resolved lookup ic.name rt
        else none))) ∧
    (planImages resolved lookup cfg (fun _ => [], [])).2 =
      cfg.flatMap (fun ic =>
        ic.templates.filterMap (templateWarning resolved lookup ic.name)) ∧
    (∀ (mn : String) (rt : String × String),
      resolveTemplate resolved lookup mn rt = none ↔
        (templateWarning resolved lookup mn rt).isSome) := by
  obtain ⟨hf, hw⟩ := planImages_spec resolved lookup cfg (fun _ => [], [])
  refine ⟨fun rn => by rw [hf rn]; simp, by rw [hw]; simp, ?_⟩
  intro mn rt
  by_cases hrid : truthyS (dget resolved rt.1) = true
  · by_cases hfid :
      truthyS (dget lookup ((dget resolved rt.1).getD "", rt.2)) = true <;>
      simp [resolveTemplate, templateWarning, hrid, hfid]
  · simp [resolveTemplate, templateWarning, hrid]

/-- C7: composite-key fabric image resolution.  With two fabric images of
the same template name in different regions, the lookup built by
`cmd_process_images` is keyed by `(regionId, templateName)`, a desired
mapping naming the template for region R1 resolves to R1's image id, and
only that id reaches R1's planned batch. -/
theorem c7_composite_key_resolution (imgs : List FabricImage)
    (i1 i2 : FabricImage) (t r1 r2 R1name m : String)
    (resolved : List (String × String))
    (h1m : i1 ∈ imgs) (h1n : i1.name = t) (h1id : i1.id ≠ "")
    (h1r : extractRegionId i1.regionHref = r1) (hr1ne : r1 ≠ "")
    (htne : t ≠ "")
    (huniq : ∀ j ∈ imgs, j.name = t → j.id ≠ "" →
      extractRegionId j.regionHref = r1 → j = i1)
    (h2m : i2 ∈ imgs) (h2n : i2.name = t)
    (h2r : extractRegionId i2.regionHref = r2) (hr12 : r2 ≠ r1)
    (hid12 : i2.id ≠ i1.id)
    (hres : dget resolved R1name = some r1) :
    dget (buildFabricLookup imgs) (r1, t) = some i1.id ∧
    (planImages resolved (buildFabricLookup imgs) [⟨m, [(R1name, t)]⟩]
        (fun _ => [], [])).1 R1name = [⟨m, t, i1.id⟩] ∧
    i2.id ∉ ((planImages resolved (buildFabricLookup imgs)
        [⟨m, [(R1name, t)]⟩] (fun _ => [], [])).1 R1name).map
      ResolvedImage.id := by
  have hlk : dget (buildFabricLookup imgs) (r1, t) = some i1.id := by
    rw [buildFabricLookup_eq]
    apply dget_eq_some_of
    · refine ⟨((r1, t), i1.id), ?_, rfl⟩
      refine List.mem_filterMap.mpr ⟨i1, h1m, ?_⟩
      simp only [h1r, h1n]
      rw [if_pos (by simp [htne, h1id, hr1ne])]
    · intro kv hkv hk
      obtain ⟨j, hj, hje⟩ := List.mem_filterMap.mp hkv
      by_cases hc : (j.name != "" && j.id != "" &&
          extractRegionId j.regionHref != "") = true
      · simp only [hc, if_pos] at hje
        have hje' : ((extractRegionId j.regionHref, j.name), j.id) = kv :=
          Option.some.inj hje
        have hkey : (extractRegionId j.regionHref, j.name) = (r1, t) := by
          rw [← hk, ← hje']
        have hjr : extractRegionId j.regionHref = r1 := congrArg Prod.fst hkey
        have hjn : j.name = t := congrArg Prod.snd hkey
        have hjid : j.id ≠ "" := by
          intro hc2
          simp [hc2] at hc
        have hji : j = i1 := huniq j hj hjn hjid hjr
        rw [← hje']
        show j.id = i1.id
        rw [hji]
      · simp [hc] at hje
  have hplan : (planImages resolved (buildFabricLookup imgs)
      [⟨m, [(R1name, t)]⟩] (fun _ => [], [])).1 R1name = [⟨m, t, i1.id⟩] := by
    rw [(planImages_spec resolved (buildFabricLookup imgs)
      [⟨m, [(R1name, t)]⟩] (fun _ => [], [])).1 R1name]
    simp [resolveTemplate, hres, truthyS, hr1ne, hlk, h1id,
      List.filterMap_cons]
  refine ⟨hlk, hplan, ?_⟩
  rw [hplan]
  simp [hid12]

/-- C7 (witness): two fabric images both named `"ubuntu-22"`, one in region
`r-1` and one in region `r-2`; the mapping `{R1: "ubuntu-22"}` resolves to
`r-1`'s image id `fid-1`, and `fid-2` never enters R1's batch. -/
theorem c7_composite_key_resolution_witness :
    dget (buildFabricLookup
        [⟨"ubuntu-22", "fid-1", "/api/regions/r-1"⟩,
         ⟨"ubuntu-22", "fid-2", "/api/regions/r-2"⟩]) ("r-1", "ubuntu-22") =
      some "fid-1" ∧
    (planImages [("R1", "r-1")]
        (buildFabricLookup
          [⟨"ubuntu-22", "fid-1", "/api/regions/r-1"⟩,
           ⟨"ubuntu-22", "fid-2", "/api/regions/r-2"⟩])
        [⟨"img", [("R1", "ubuntu-22")]⟩] (fun _ => [], [])).1 "R1" =
      [⟨"img", "ubuntu-22", "fid-1"⟩] ∧
    "fid-2" ∉ ((planImages [("R1", "r-1")]
        (buildFabricLookup
          [⟨"ubuntu-22", "fid-1", "/api/regions/r-1"⟩,
           ⟨"ubuntu-22", "fid-2", "/api/regions/r-2"⟩])
        [⟨"img", [("R1", "ubuntu-22")]⟩] (fun _ => [], [])).1 "R1").map
      ResolvedImage.id :=
  c7_composite_key_resolution
    [⟨"ubuntu-22", "fid-1", "/api/regions/r-1"⟩,
     ⟨"ubuntu-22", "fid-2", "/api/regions/r-2"⟩]
    ⟨"ubuntu-22", "fid-1", "/api/regions/r-1"⟩
    ⟨"ubuntu-22", "fid-2", "/api/regions/r-2"⟩
    "ubuntu-22" "r-1" "r-2" "R1" "img" [("R1", "r-1")]
    (by decide) (by decide) (by decide) (by decide) (by decide) (by decide)
    (by decide) (by decide) (by decide) (by decide) (by decide) (by decide)
    (by decide)

/-! ## Flavor aggregate writes (C9) -/

theorem dget_of_nodup_fst {α β : Type} [DecidableEq α] (l : List (α × β))
    (h : (l.map Prod.fst).Nodup) (k : α) (v : β) (hm : (k, v) ∈ l) :
    dget l k = some v := by
  apply dget_eq_some_of
  · exact ⟨(k, v), hm, rfl⟩
  · intro kv hkv hk
    have : kv = (k, v) := List.inj_on_of_nodup_map h hkv hm hk
    rw [this]

theorem buildFlavorMapping_eq (flavors : List FlavorDef) :
    buildFlavorMapping flavors =
      flavors.map (fun f => (f.name, (⟨f.cpuCount, f.memoryMB⟩ :
        FlavorMappingEntry))) := by
  unfold buildFlavorMapping
  rw [foldl_dinsert_eq_append _
    (fun f => some (f.name, (⟨f.cpuCount, f.memoryMB⟩ : FlavorMappingEntry)))
    (fun acc x => rfl) flavors []]
  rw [List.nil_append]
  induction flavors with
  | nil => rfl
  | cons f rest ih => rw [List.filterMap_cons, List.map_cons, ih]

/-- C9: flavor aggregate write without diffing.  The flavor command's planned
(and, in execute mode, issued) creates are exactly one per resolved region,
each carrying a `flavorMapping` holding every configured flavor definition
keyed by name; the plan reads nothing of the backend besides the region
listing, so no diff against existing flavor profiles takes part. -/
theorem c9_flavor_aggregate_write (st : Backend) (cfg : Config)
    (hf : cfg.flavors ≠ []) :
    (runFlavorsCmd st cfg).1 =
      (resolveRegions st.regionsB cfg.regions).map (fun ri =>
        ⟨cfg.flavorProfileName.getD "vSphere-flavor-profile",
         cfg.flavorProfileDescription.getD
           ("Flavor profile with " ++ toString cfg.flavors.length ++
             " size options"),
         ri.2, buildFlavorMapping cfg.flavors⟩) ∧
    (runFlavorsCmd st cfg).1.length =
      (resolveRegions st.regionsB cfg.regions).length ∧
    ((cfg.flavors.map FlavorDef.name).Nodup → ∀ fl ∈ cfg.flavors,
      ∀ pl ∈ (runFlavorsCmd st cfg).1,
        dget pl.flavorMapping fl.name = some ⟨fl.cpuCount, fl.memoryMB⟩) ∧
    (∀ st2 : Backend, st2.regionsB = st.regionsB →
      (runFlavorsCmd st2 cfg).1 = (runFlavorsCmd st cfg).1) := by
  have hfe : cfg.flavors.isEmpty = false := by
    cases hc : cfg.flavors with
    | nil => exact absurd hc hf
    | cons a l => rfl
  have hmain : ∀ st2 : Backend, st2.regionsB = st.regionsB →
      (runFlavorsCmd st2 cfg).1 =
        (resolveRegions st.regionsB cfg.regions).map (fun ri =>
          ⟨cfg.flavorProfileName.getD "vSphere-flavor-profile",
           cfg.flavorProfileDescription.getD
             ("Flavor profile with " ++ toString cfg.flavors.length ++
               " size options"),
           ri.2, buildFlavorMapping cfg.flavors⟩) := by
    intro st2 hreg
    unfold runFlavorsCmd
    rw [hreg]
    by_cases hres : (resolveRegions st.regionsB cfg.regions).isEmpty
    · have : resolveRegions st.regionsB cfg.regions = [] :=
        List.isEmpty_iff.mp hres
      simp [hres, this]
    · simp [hres, hfe]
  have h1 := hmain st rfl
  refine ⟨h1, by rw [h1, List.length_map], ?_, fun st2 hr => (hmain st2 hr).trans h1.symm⟩
  intro hnd fl hfl pl hpl
  rw [h1] at hpl
  obtain ⟨ri, _, hple⟩ := List.mem_map.mp hpl
  have hmap : pl.flavorMapping = buildFlavorMapping cfg.flavors := by
    rw [← hple]
  rw [hmap, buildFlavorMapping_eq]
  apply dget_of_nodup_fst
  · rw [List.map_map]
    exact hnd
  · exact List.mem_map_of_mem _ hfl

/-- C9 (witness): the spec's scenario — flavors `small` and `large`, one
resolved region — yields exactly one planned create whose mapping holds both
flavors. -/
theorem c9_flavor_aggregate_write_witness :
    (runFlavorsCmd
        ⟨[⟨"R1", "r-1"⟩], [], [], [], [], []⟩
        ⟨["R1"], [⟨"small", 1, 1024⟩, ⟨"large", 4, 4096⟩], [], none, none,
          none, none, none⟩).1.length =
      (resolveRegions [⟨"R1", "r-1"⟩] ["R1"]).length ∧
    dget (⟨"vSphere-flavor-profile", "Flavor profile with 2 size options",
        "r-1",
        buildFlavorMapping [⟨"small", 1, 1024⟩, ⟨"large", 4, 4096⟩]⟩ :
        FlavorProfilePayload).flavorMapping "small" = some ⟨1, 1024⟩ := by
  have h := c9_flavor_aggregate_write
    ⟨[⟨"R1", "r-1"⟩], [], [], [], [], []⟩
    ⟨["R1"], [⟨"small", 1, 1024⟩, ⟨"large", 4, 4096⟩], [], none, none, none,
      none, none⟩ (by decide)
  refine ⟨h.2.1, ?_⟩
  exact h.2.2.1 (by decide) ⟨"small", 1, 1024⟩ (by decide) _ (by decide)

/-! ## Tag summary counters (C10) -/

/-- C10: converged resources are uncounted in the tag summary.  In execute
mode, `updated` counts exactly the accepted writes, `failed` the rejected
writes, and `skipped` the not-found resources; an already-converged entry
increments nothing, so `updated + failed + skipped` plus the number of
converged entries equals the number of configured entries — the counter sum
falls short of the configured total by exactly the converged entries. -/
theorem c10_converged_uncounted (st : Backend) (cfg : Config)
    (tc : TagsConfig) (wr : TagWriteOp → Bool)
    (htc : cfg.tagsSection = some tc) :
    (runTagsCmd false wr st cfg).2.1.created = 0 ∧
    (runTagsCmd false wr st cfg).2.1.updated =
      tc.cloudZones.countP (tagUpdatedP wr .cloudZone st.zones) +
      tc.networkProfiles.countP (tagUpdatedP wr .networkProfile st.netProfiles) +
      tc.compute.countP (tagUpdatedP wr .fabricCompute st.computes) ∧
    (runTagsCmd false wr st cfg).2.1.failed =
      tc.cloudZones.countP (tagFailedP wr .cloudZone st.zones) +
      tc.networkProfiles.countP (tagFailedP wr .networkProfile st.netProfiles) +
      tc.compute.countP (tagFailedP wr .fabricCompute st.computes) ∧
    (runTagsCmd false wr st cfg).2.1.skipped =
      tc.cloudZones.countP (tagSkippedP st.zones) +
      tc.networkProfiles.countP (tagSkippedP st.netProfiles) +
      tc.compute.countP (tagSkippedP st.computes) ∧
    (runTagsCmd false wr st cfg).2.1.updated +
        (runTagsCmd false wr st cfg).2.1.failed +
        (runTagsCmd false wr st cfg).2.1.skipped +
        (tc.cloudZones.countP (tagConvergedP st.zones) +
          tc.networkProfiles.countP (tagConvergedP st.netProfiles) +
          tc.compute.countP (tagConvergedP st.computes)) =
      tc.cloudZones.length + tc.networkProfiles.length + tc.compute.length := by
  have hz := runTagSection_results wr .cloudZone st.zones tc.cloudZones st.zones
  have hn := runTagSection_results wr .networkProfile st.netProfiles
    tc.networkProfiles st.netProfiles
  have hc := runTagSection_results wr .fabricCompute st.computes tc.compute
    st.computes
  have hres : (runTagsCmd false wr st cfg).2.1 =
      ⟨0,
       tc.cloudZones.countP (tagUpdatedP wr .cloudZone st.zones) +
         tc.networkProfiles.countP (tagUpdatedP wr .networkProfile st.netProfiles) +
         tc.compute.countP (tagUpdatedP wr .fabricCompute st.computes),
       tc.cloudZones.countP (tagFailedP wr .cloudZone st.zones) +
         tc.networkProfiles.countP (tagFailedP wr .networkProfile st.netProfiles) +
         tc.compute.countP (tagFailedP wr .fabricCompute st.computes),
       tc.cloudZones.countP (tagSkippedP st.zones) +
         tc.networkProfiles.countP (tagSkippedP st.netProfiles) +
         tc.compute.countP (tagSkippedP st.computes)⟩ := by
    simp [runTagsCmd, htc, hz, hn, hc, Results.add]
  have hp1 := tag_counts_partition wr .cloudZone st.zones tc.cloudZones
  have hp2 := tag_counts_partition wr .networkProfile st.netProfiles
    tc.networkProfiles
  have hp3 := tag_counts_partition wr .fabricCompute st.computes tc.compute
  have hu : (runTagsCmd false wr st cfg).2.1.updated =
      tc.cloudZones.countP (tagUpdatedP wr .cloudZone st.zones) +
      tc.networkProfiles.countP (tagUpdatedP wr .networkProfile st.netProfiles) +
      tc.compute.countP (tagUpdatedP wr .fabricCompute st.computes) := by
    rw [hres]
  have hf2 : (runTagsCmd false wr st cfg).2.1.failed =
      tc.cloudZones.countP (tagFailedP wr .cloudZone st.zones) +
      tc.networkProfiles.countP (tagFailedP wr .networkProfile st.netProfiles) +
      tc.compute.countP (tagFailedP wr .fabricCompute st.computes) := by
    rw [hres]
  have hs2 : (runTagsCmd false wr st cfg).2.1.skipped =
      tc.cloudZones.countP (tagSkippedP st.zones) +
      tc.networkProfiles.countP (tagSkippedP st.netProfiles) +
      tc.compute.countP (tagSkippedP st.computes) := by
    rw [hres]
  refine ⟨by rw [hres], hu, hf2, hs2, ?_⟩
  rw [hu, hf2, hs2]
  omega

/-- C10 (witness): one converged zone, one not-found zone and one updated
network profile: the summary counts updated 1, failed 0, skipped 1, and the
sum 2 is strictly below the 3 configured entries. -/
theorem c10_converged_uncounted_witness :
    (runTagsCmd false (fun _ => true)
        ⟨[], [], [⟨"Z1", "z-1", [⟨"k", "v"⟩]⟩], [⟨"N1", "n-1", []⟩], [], []⟩
        ⟨[], [], [], none, none, none, none,
          some ⟨[⟨"Z1", [⟨"k", "v"⟩]⟩, ⟨"missing", [⟨"k", "v"⟩]⟩],
            [⟨"N1", [⟨"a", "b"⟩]⟩], [], []⟩⟩).2.1.created = 0 ∧
    (runTagsCmd false (fun _ => true)
        ⟨[], [], [⟨"Z1", "z-1", [⟨"k", "v"⟩]⟩], [⟨"N1", "n-1", []⟩], [], []⟩
        ⟨[], [], [], none, none, none, none,
          some ⟨[⟨"Z1", [⟨"k", "v"⟩]⟩, ⟨"missing", [⟨"k", "v"⟩]⟩],
            [⟨"N1", [⟨"a", "b"⟩]⟩], [], []⟩⟩).2.1.updated +
      (runTagsCmd false (fun _ => true)
        ⟨[], [], [⟨"Z1", "z-1", [⟨"k", "v"⟩]⟩], [⟨"N1", "n-1", []⟩], [], []⟩
        ⟨[], [], [], none, none, none, none,
          some ⟨[⟨"Z1", [⟨"k", "v"⟩]⟩, ⟨"missing", [⟨"k", "v"⟩]⟩],
            [⟨"N1", [⟨"a", "b"⟩]⟩], [], []⟩⟩).2.1.failed +
      (runTagsCmd false (fun _ => true)
        ⟨[], [], [⟨"Z1", "z-1", [⟨"k", "v"⟩]⟩], [⟨"N1", "n-1", []⟩], [], []⟩
        ⟨[], [], [], none, none, none, none,
          some ⟨[⟨"Z1", [⟨"k", "v"⟩]⟩, ⟨"missing", [⟨"k", "v"⟩]⟩],
            [⟨"N1", [⟨"a", "b"⟩]⟩], [], []⟩⟩).2.1.skipped < 3 := by
  have h := c10_converged_uncounted
    ⟨[], [], [⟨"Z1", "z-1", [⟨"k", "v"⟩]⟩], [⟨"N1", "n-1", []⟩], [], []⟩
    ⟨[], [], [], none, none, none, none,
      some ⟨[⟨"Z1", [⟨"k", "v"⟩]⟩, ⟨"missing", [⟨"k", "v"⟩]⟩],
        [⟨"N1", [⟨"a", "b"⟩]⟩], [], []⟩⟩
    ⟨[⟨"Z1", [⟨"k", "v"⟩]⟩, ⟨"missing", [⟨"k", "v"⟩]⟩],
      [⟨"N1", [⟨"a", "b"⟩]⟩], [], []⟩
    (fun _ => true) rfl
  refine ⟨h.1, ?_⟩
  rw [h.2.1, h.2.2.1, h.2.2.2.1]
  decide

/-! ## Dry-run parity (C1) -/

/-- A backend with one storage profile `X` currently tagged `k:A`. -/
def c1_state : Backend :=
  { regionsB := []
    fabricImages := []
    zones := []
    netProfiles := []
    computes := []
    storageProfiles := [⟨"sp-1", some "X", "d", false, false, [⟨"k", "A"⟩],
      "r-1", "", none, none, none⟩] }

/-- A desired spec with two storage entries for the same profile name `X`:
first retag to `k:B`, then back to `k:A`. -/
def c1_config : Config :=
  { regions := []
    flavors := []
    images := []
    flavorProfileName := none
    flavorProfileDescription := none
    imageProfileName := none
    imageProfileDescription := none
    tagsSection := some
      { cloudZones := []
        networkProfiles := []
        compute := []
        storageProfiles :=
          [⟨"X", [⟨"k", "B"⟩], false, none, none, none, "thin", false⟩,
           ⟨"X", [⟨"k", "A"⟩], false, none, none, none, "thin", false⟩] } }

/-- C1 (counterexample): `cmd_process_storage` re-fetches each profile's
detail inside the loop, so with two desired entries for the same profile the
second entry sees the first write's effect in execute mode but not in
dry-run mode: dry-run plans one operation while execute issues two — the
planned and issued operation sets differ for this fixed backend state and
desired spec. -/
theorem c1_counterexample :
    (runStorageCmd true (fun _ => true) c1_state [] c1_config).1.length = 1 ∧
    (runStorageCmd false (fun _ => true) c1_state [] c1_config).1.length = 2 ∧
    (runStorageCmd true (fun _ => true) c1_state [] c1_config).1 ≠
      (runStorageCmd false (fun _ => true) c1_state [] c1_config).1 := by
  refine ⟨rfl, rfl, ?_⟩
  decide

/-- C1 (amended): dry-run and execute evaluate the same decision logic —
region resolution, prefetched lookups, tag-set diffing and
create-vs-update branching — and the planned operations of dry-run equal
the issued operations of execute: unconditionally for `cmd_process_tags`
(whose resources are fetched once before the loop), and for
`cmd_process_storage` provided no two desired storage entries share a
profile name, backend profile ids are distinct, and backend-assigned create
ids collide with nothing (ruling out the in-loop detail re-fetch observing
an earlier write). -/
theorem c1_dry_run_parity :
    (∀ (wr : TagWriteOp → Bool) (st : Backend) (cfg : Config),
      (runTagsCmd true wr st cfg).1 = (runTagsCmd false wr st cfg).1) ∧
    (∀ (wr : StorageOp → Bool) (st : Backend) (fresh : List String)
      (cfg : Config),
      ((((cfg.tagsSection.map (·.storageProfiles)).getD []).map
        StorageEntry.name).Nodup) →
      ((st.storageProfiles.map StorageProfile.id).Nodup) →
      (∀ f ∈ fresh, ∀ p ∈ st.storageProfiles, f ≠ p.id) →
      (runStorageCmd true wr st fresh cfg).1 =
        (runStorageCmd false wr st fresh cfg).1) := by
  constructor
  · intro wr st cfg
    cases htc : cfg.tagsSection with
    | none => simp [runTagsCmd, htc]
    | some tc =>
      simp [runTagsCmd, htc, runTagSection_ops]
  · intro wr st fresh cfg hn hi hfresh
    unfold runStorageCmd
    by_cases hsp : ((cfg.tagsSection.map (·.storageProfiles)).getD []).isEmpty
    · simp [hsp]
    · simp only [hsp, if_false, Bool.false_eq_true]
      rw [runStorageEntries_ops_dry, runStorageEntries_ops_exec wr
        st.storageProfiles st.regionsB st.computes hi _ _ fresh hn hfresh
        (fun e _ sp _ => rfl)]

/-- C1 (witness): the storage parity applied to a one-entry spec with
distinct names — the dry-run plan equals the execute-issued operations. -/
theorem c1_dry_run_parity_witness :
    (runStorageCmd true (fun _ => true)
        ⟨[], [], [], [], [],
          [⟨"sp-1", some "X", "d", false, false, [⟨"k", "A"⟩], "r-1", "",
            none, none, none⟩]⟩ []
        ⟨[], [], [], none, none, none, none,
          some ⟨[], [], [],
            [⟨"X", [⟨"k", "B"⟩], false, none, none, none, "thin", false⟩]⟩⟩).1 =
      (runStorageCmd false (fun _ => true)
        ⟨[], [], [], [], [],
          [⟨"sp-1", some "X", "d", false, false, [⟨"k", "A"⟩], "r-1", "",
            none, none, none⟩]⟩ []
        ⟨[], [], [], none, none, none, none,
          some ⟨[], [], [],
            [⟨"X", [⟨"k", "B"⟩], false, none, none, none, "thin", false⟩]⟩⟩).1 :=
  c1_dry_run_parity.2 (fun _ => true)
    ⟨[], [], [], [], [],
      [⟨"sp-1", some "X", "d", false, false, [⟨"k", "A"⟩], "r-1", "",
        none, none, none⟩]⟩ []
    ⟨[], [], [], none, none, none, none,
      some ⟨[], [], [],
        [⟨"X", [⟨"k", "B"⟩], false, none, none, none, "thin", false⟩]⟩⟩
    (by decide) (by decide) (by decide)

/-! ## Cross-slice preservation lemmas (C2) -/

theorem computeIdLookup_applyTagWrites (cs : List Resource)
    (ops : List TagWriteOp) (n : String) :
    computeIdLookup (applyTagWrites cs ops) n = computeIdLookup cs n := by
  unfold computeIdLookup
  rw [applyTagWrites_eq_map,
    lookupByName_map cs _ (fun r _ => applyOpsRes_name ops r)]
  cases lookupByName cs n with
  | none => rfl
  | some r => simp [applyOpsRes_id]

theorem storageComputeId_applyTagWrites (cs : List Resource)
    (ops : List TagWriteOp) (e : StorageEntry) :
    storageComputeId (applyTagWrites cs ops) e = storageComputeId cs e := by
  unfold storageComputeId
  rw [computeIdLookup_applyTagWrites]

theorem storageEntryVerdict_computes_congr (orig cur : List StorageProfile)
    (regions : List Region) (cs cs' : List Resource) (e : StorageEntry)
    (h : storageComputeId cs e = storageComputeId cs' e) :
    storageEntryVerdict orig cur regions cs e =
      storageEntryVerdict orig cur regions cs' e := by
  unfold storageEntryVerdict
  rw [h]

theorem storageEntryOp_computes_congr (orig cur : List StorageProfile)
    (regions : List Region) (cs cs' : List Resource) (e : StorageEntry)
    (h : storageComputeId cs e = storageComputeId cs' e) :
    storageEntryOp orig cur regions cs e =
      storageEntryOp orig cur regions cs' e := by
  unfold storageEntryOp
  rw [storageEntryVerdict_computes_congr orig cur regions cs cs' e h]

theorem created_ids (posts : List StorageCreatePayload) :
    ∀ fresh : List String,
      (List.zipWith profileOfCreate fresh posts).map StorageProfile.id =
        fresh.take posts.length := by
  induction posts with
  | nil => intro fresh; simp
  | cons c rest ih =>
    intro fresh
    cases fresh with
    | nil => simp
    | cons f fresh2 =>
      rw [List.zipWith_cons_cons, List.map_cons, profileOfCreate_id, ih,
        List.length_cons, List.take_succ_cons]

theorem applyStorageOps_ids (P : List StorageProfile) (fresh : List String)
    (ops : List StorageOp)
    (hput : ∀ i pl, StorageOp.put i pl ∈ ops → i ∉ fresh) :
    (applyStorageOps P fresh ops).map StorageProfile.id =
      P.map StorageProfile.id ++ fresh.take (postsOf ops).length := by
  rw [applyStorageOps_structure ops P fresh hput, List.map_append,
    created_ids]
  congr 1
  rw [List.map_map]
  apply List.map_congr_left
  intro p _
  exact applyPutsRes_id ops p

/-! ## C2: tag-reconciliation idempotence -/

/-- A backend whose storage profile `X` already carries the desired tags
but is bound to compute `c-old`, while the fabric compute `K` has id
`c-new`. -/
def c2_state : Backend :=
  { regionsB := []
    fabricImages := []
    zones := []
    netProfiles := []
    computes := [⟨"K", "c-new", []⟩]
    storageProfiles := [⟨"sp-1", some "X", "d", false, false, [⟨"k", "v"⟩],
      "r-1", "", none, none, some "c-old"⟩] }

/-- A desired spec asking for the same tags on `X` but compute binding `K`. -/
def c2_config : Config :=
  { regions := []
    flavors := []
    images := []
    flavorProfileName := none
    flavorProfileDescription := none
    imageProfileName := none
    imageProfileDescription := none
    tagsSection := some
      { cloudZones := []
        networkProfiles := []
        compute := []
        storageProfiles :=
          [⟨"X", [⟨"k", "v"⟩], false, some "K", none, none, "thin", false⟩] } }

/-- C2 (counterexample): for a storage profile, equality of the
joined-string tag sets does not imply a `Converged` verdict — when the
configured compute binding resolves to a compute id different from the
existing `computeHostId`, the entry still issues a full-replace PUT even
though every desired tag set already matches the existing one. -/
theorem c2_counterexample :
    (∀ p ∈ c2_state.storageProfiles,
      ∀ e ∈ ((c2_config.tagsSection.map (·.storageProfiles)).getD []),
        tagSetEq p.tags e.tags = true) ∧
    (runStorageCmd false (fun _ => true) c2_state [] c2_config).1 ≠ [] := by
  constructor
  · decide
  · decide

/-- Cmd-level storage idempotence: starting from the state a fully accepted
execute run leaves, with decisions against any retagged-but-otherwise-equal
compute slice, the same entries produce no operation. -/
theorem storage_second_cmd_empty
    (P : List StorageProfile) (rg : List Region) (cs : List Resource)
    (fresh fresh2 : List String) (es : List StorageEntry)
    (hn : (es.map StorageEntry.name).Nodup)
    (hi : (P.map StorageProfile.id).Nodup)
    (hfr : fresh.Nodup)
    (hfd : ∀ f ∈ fresh, ∀ p ∈ P, f ≠ p.id)
    (hlen : es.length ≤ fresh.length)
    (hf2a : ∀ f ∈ fresh2, ∀ p ∈ P, f ≠ p.id)
    (hf2b : ∀ f ∈ fresh2, f ∉ fresh)
    (cops : List TagWriteOp) :
    (runStorageEntries false (fun _ => true)
        (applyStorageOps P fresh (es.filterMap (storageEntryOp P P rg cs)))
        rg (applyTagWrites cs cops) es
        (applyStorageOps P fresh (es.filterMap (storageEntryOp P P rg cs)))
        fresh2).1 = [] := by
  have hput1 : ∀ i pl, StorageOp.put i pl ∈
      es.filterMap (storageEntryOp P P rg cs) → i ∉ fresh := by
    intro i pl hm hmem
    obtain ⟨e', _, ps, hps, hips, _⟩ := storagePut_origin hi hm
    exact hfd i hmem ps (lookupStorageByName_mem hps).1 hips
  have hids2 : (applyStorageOps P fresh
      (es.filterMap (storageEntryOp P P rg cs))).map StorageProfile.id =
      P.map StorageProfile.id ++
        fresh.take (postsOf (es.filterMap (storageEntryOp P P rg cs))).length :=
    applyStorageOps_ids P fresh _ hput1
  have hi2 : ((applyStorageOps P fresh
      (es.filterMap (storageEntryOp P P rg cs))).map StorageProfile.id).Nodup := by
    rw [hids2]
    refine List.Nodup.append hi (hfr.sublist (List.take_sublist _ _)) ?_
    intro a ha hb
    obtain ⟨p, hp, hpa⟩ := List.mem_map.mp ha
    exact hfd a (List.mem_of_mem_take hb) p hp hpa.symm
  have hfd2 : ∀ f ∈ fresh2, ∀ p ∈ applyStorageOps P fresh
      (es.filterMap (storageEntryOp P P rg cs)), f ≠ p.id := by
    intro f hf p hp hc
    have hpid : p.id ∈ (applyStorageOps P fresh
        (es.filterMap (storageEntryOp P P rg cs))).map StorageProfile.id :=
      List.mem_map_of_mem _ hp
    rw [hids2] at hpid
    rcases List.mem_append.mp hpid with hA | hB
    · obtain ⟨q, hq, hqa⟩ := List.mem_map.mp hA
      exact hf2a f hf q hq (hc.trans hqa.symm)
    · exact hf2b f hf (by rw [hc]; exact List.mem_of_mem_take hB)
  rw [runStorageEntries_ops_exec (fun _ => true) _ rg (applyTagWrites cs cops)
    hi2 es _ fresh2 hn hfd2 (fun e he sp hsp => rfl)]
  rw [List.filterMap_congr (fun e he => storageEntryOp_computes_congr _ _ rg
    (applyTagWrites cs cops) cs e (storageComputeId_applyTagWrites cs cops e))]
  have hlen2 : (postsOf (es.filterMap (storageEntryOp P P rg cs))).length ≤
      fresh.length :=
    le_trans (le_trans (List.length_filterMap_le _ _)
      (List.length_filterMap_le _ _)) hlen
  exact storage_second_run_empty P rg cs fresh es hn hi hfr hfd hlen2

/-- C2 (amended): for cloud zones, network profiles and fabric computes,
equality of the joined-string tag sets alone yields a `Converged` verdict
and no write; for storage profiles, convergence additionally requires the
compute binding to match (falsy configured compute, or existing
`computeHostId` equal to the resolved compute id).  Consequently — with
duplicate-free configured entry names, duplicate-free backend ids, and a
sufficient supply of fresh backend-assigned create ids — running the
storage and tags handlers in execute mode and then running both again
issues zero write calls on the second run. -/
theorem c2_tag_reconciliation_idempotence
    (st : Backend) (cfg : Config) (tc : TagsConfig)
    (fresh fresh2 : List String)
    (htc : cfg.tagsSection = some tc)
    (hzn : (tc.cloudZones.map TagEntry.name).Nodup)
    (hnn : (tc.networkProfiles.map TagEntry.name).Nodup)
    (hcn : (tc.compute.map TagEntry.name).Nodup)
    (hsn : (tc.storageProfiles.map StorageEntry.name).Nodup)
    (hzi : (st.zones.map Resource.id).Nodup)
    (hni : (st.netProfiles.map Resource.id).Nodup)
    (hci : (st.computes.map Resource.id).Nodup)
    (hsi : (st.storageProfiles.map StorageProfile.id).Nodup)
    (hfr : fresh.Nodup)
    (hfd : ∀ f ∈ fresh, ∀ p ∈ st.storageProfiles, f ≠ p.id)
    (hlen : tc.storageProfiles.length ≤ fresh.length)
    (hf2a : ∀ f ∈ fresh2, ∀ p ∈ st.storageProfiles, f ≠ p.id)
    (hf2b : ∀ f ∈ fresh2, f ∉ fresh) :
    (∀ (kind : TagKind) (rs : List Resource) (e : TagEntry) (r : Resource),
      lookupByName rs e.name = some r → tagSetEq r.tags e.tags = true →
      tagEntryOp kind rs e = none) ∧
    (∀ (ps cur : List StorageProfile) (rg : List Region)
      (cs : List Resource) (e : StorageEntry) (sp p : StorageProfile),
      lookupStorageByName ps e.name = some sp →
      get_storage_profile_detail cur sp.id = some p →
      tagSetEq p.tags e.tags = true →
      (!truthyS (storageComputeId cs e) ||
        decide (p.computeHostId = storageComputeId cs e)) = true →
      storageEntryOp ps cur rg cs e = none) ∧
    (∀ st1 st2 : Backend,
      (runStorageCmd false (fun _ => true) st fresh cfg).2.2.1 = st1 →
      (runTagsCmd false (fun _ => true) st1 cfg).2.2.1 = st2 →
      (runStorageCmd false (fun _ => true) st2 fresh2 cfg).1 = [] ∧
      (runTagsCmd false (fun _ => true) st2 cfg).1 = []) := by
  refine ⟨?_, ?_, ?_⟩
  · intro kind rs e r hlk hconv
    simp [tagEntryOp, tagEntryVerdict, hlk, hconv]
  · intro ps cur rg cs e sp p hlk hdet htags hcm
    simp [storageEntryOp, storageEntryVerdict, hlk, hdet, htags, hcm]
  · intro st1 st2 hst1 hst2
    have hspcEq : ((cfg.tagsSection.map (·.storageProfiles)).getD []) =
        tc.storageProfiles := by rw [htc]; rfl
    have hchar1 : st1.storageProfiles = applyStorageOps st.storageProfiles
          fresh (tc.storageProfiles.filterMap (storageEntryOp
            st.storageProfiles st.storageProfiles st.regionsB st.computes)) ∧
        st1.zones = st.zones ∧ st1.netProfiles = st.netProfiles ∧
        st1.computes = st.computes ∧ st1.regionsB = st.regionsB := by
      by_cases hspc : tc.storageProfiles.isEmpty
      · have hspnil : tc.storageProfiles = [] := List.isEmpty_iff.mp hspc
        have hst1eq : st1 = st := by
          rw [← hst1]
          simp only [runStorageCmd, hspcEq]
          rw [if_pos hspc]
        have hone : applyStorageOps st.storageProfiles fresh
            (tc.storageProfiles.filterMap (storageEntryOp st.storageProfiles
              st.storageProfiles st.regionsB st.computes)) =
            st.storageProfiles := by
          rw [hspnil]
          show applyStorageOps st.storageProfiles fresh [] = st.storageProfiles
          cases fresh <;> rfl
        rw [hst1eq, hone]
        exact ⟨rfl, rfl, rfl, rfl, rfl⟩
      · have hfin1run : (runStorageEntries false (fun _ => true)
            st.storageProfiles st.regionsB st.computes tc.storageProfiles
            st.storageProfiles fresh).2.2 =
            applyStorageOps st.storageProfiles fresh
              (tc.storageProfiles.filterMap (storageEntryOp st.storageProfiles
                st.storageProfiles st.regionsB st.computes)) := by
          rw [runStorageEntries_final_exec,
            runStorageEntries_ops_exec (fun _ => true) st.storageProfiles
              st.regionsB st.computes hsi tc.storageProfiles st.storageProfiles
              fresh hsn hfd (fun e he sp hsp => rfl)]
        have hst1eq : st1 = { st with storageProfiles := (applyStorageOps
            st.storageProfiles fresh (tc.storageProfiles.filterMap
              (storageEntryOp st.storageProfiles st.storageProfiles st.regionsB
                st.computes))) } := by
          rw [← hst1]
          simp only [runStorageCmd, hspcEq]
          rw [if_neg hspc, hfin1run]
        rw [hst1eq]
        exact ⟨rfl, rfl, rfl, rfl, rfl⟩
    obtain ⟨h1p, h1z, h1n, h1c, h1r⟩ := hchar1
    have hchar2 : st2.zones = applyTagWrites st.zones
          (tc.cloudZones.filterMap (tagEntryOp .cloudZone st.zones)) ∧
        st2.netProfiles = applyTagWrites st.netProfiles
          (tc.networkProfiles.filterMap (tagEntryOp .networkProfile
            st.netProfiles)) ∧
        st2.computes = applyTagWrites st.computes
          (tc.compute.filterMap (tagEntryOp .fabricCompute st.computes)) ∧
        st2.storageProfiles = st1.storageProfiles ∧
        st2.regionsB = st1.regionsB := by
      have hst2eq : st2 = { st1 with
          zones := (runTagSection false (fun _ => true) .cloudZone st1.zones
            tc.cloudZones st1.zones).2.2,
          netProfiles := (runTagSection false (fun _ => true) .networkProfile
            st1.netProfiles tc.networkProfiles st1.netProfiles).2.2,
          computes := (runTagSection false (fun _ => true) .fabricCompute
            st1.computes tc.compute st1.computes).2.2 } := by
        rw [← hst2]
        simp only [runTagsCmd, htc]
      rw [hst2eq]
      refine ⟨?_, ?_, ?_, rfl, rfl⟩
      · show (runTagSection false (fun _ => true) .cloudZone st1.zones
          tc.cloudZones st1.zones).2.2 = _
        rw [runTagSection_final, h1z]
      · show (runTagSection false (fun _ => true) .networkProfile
          st1.netProfiles tc.networkProfiles st1.netProfiles).2.2 = _
        rw [runTagSection_final, h1n]
      · show (runTagSection false (fun _ => true) .fabricCompute st1.computes
          tc.compute st1.computes).2.2 = _
        rw [runTagSection_final, h1c]
    obtain ⟨h2z, h2n, h2c, h2p, h2r⟩ := hchar2
    refine ⟨?_, ?_⟩
    · by_cases hspc : tc.storageProfiles.isEmpty
      · simp only [runStorageCmd, hspcEq]
        rw [if_pos hspc]
      · simp only [runStorageCmd, hspcEq]
        rw [if_neg hspc]
        show (runStorageEntries false (fun _ => true) st2.storageProfiles
          st2.regionsB st2.computes tc.storageProfiles st2.storageProfiles
          fresh2).1 = []
        rw [h2p, h1p, h2r, h1r, h2c]
        exact storage_second_cmd_empty st.storageProfiles st.regionsB
          st.computes fresh fresh2 tc.storageProfiles hsn hsi hfr hfd hlen
          hf2a hf2b _
    · simp only [runTagsCmd, htc]
      simp only [runTagSection_ops]
      rw [h2z, h2n, h2c,
        tagSection_second_run_empty .cloudZone st.zones tc.cloudZones hzn hzi,
        tagSection_second_run_empty .networkProfile st.netProfiles
          tc.networkProfiles hnn hni,
        tagSection_second_run_empty .fabricCompute st.computes tc.compute
          hcn hci]
      rfl

/-- A small concrete backend for exercising the idempotence theorem: one
region, one zone, one network profile, one compute, one storage profile. -/
def c2_witness_state : Backend :=
  { regionsB := [⟨"R", "r-1"⟩]
    fabricImages := []
    zones := [⟨"Z", "z-1", []⟩]
    netProfiles := [⟨"N", "n-1", []⟩]
    computes := [⟨"K", "c-1", []⟩]
    storageProfiles := [⟨"sp-1", some "S", "", false, false, [], "r-1", "",
      none, none, none⟩] }

/-- A tags section touching every slice once. -/
def c2_witness_tc : TagsConfig :=
  { cloudZones := [⟨"Z", [⟨"k", "v"⟩]⟩]
    networkProfiles := [⟨"N", [⟨"k", "v"⟩]⟩]
    compute := [⟨"K", [⟨"k", "v"⟩]⟩]
    storageProfiles :=
      [⟨"S", [⟨"k", "v"⟩], false, some "K", none, none, "thin", false⟩] }

def c2_witness_config : Config :=
  { regions := []
    flavors := []
    images := []
    flavorProfileName := none
    flavorProfileDescription := none
    imageProfileName := none
    imageProfileDescription := none
    tagsSection := some c2_witness_tc }

/-- C2 (witness): on the concrete one-entry-per-slice spec, after an
execute run of storage and tags, a second execute run of both issues no
write operation. -/
theorem c2_tag_reconciliation_idempotence_witness :
    (runStorageCmd false (fun _ => true)
        ((runTagsCmd false (fun _ => true)
          ((runStorageCmd false (fun _ => true) c2_witness_state ["f1"]
            c2_witness_config).2.2.1) c2_witness_config).2.2.1)
        ["g1"] c2_witness_config).1 = [] ∧
    (runTagsCmd false (fun _ => true)
        ((runTagsCmd false (fun _ => true)
          ((runStorageCmd false (fun _ => true) c2_witness_state ["f1"]
            c2_witness_config).2.2.1) c2_witness_config).2.2.1)
        c2_witness_config).1 = [] :=
  (c2_tag_reconciliation_idempotence c2_witness_state c2_witness_config
    c2_witness_tc ["f1"] ["g1"] rfl (by decide) (by decide) (by decide)
    (by decide) (by decide) (by decide) (by decide) (by decide) (by decide)
    (by decide) (by decide) (by decide) (by decide)).2.2 _ _ rfl rfl
